import Mathlib

/-!
Verification development for z3c.davapp.zopelocking: a shallow embedding of
the WebDAV lock manager glue over the zope.locking token utility.

The embedding covers:
  * `IndirectToken` and the `removeEndedTokens` cascade subscriber
    (src/z3c/davapp/zopelocking/indirecttokens.py);
  * `DAVLockmanager.lock` / `DAVLockmanager.unlock` /
    `DAVLockmanager.maybeRecursivelyLockIndirectly` and the
    `indirectlyLockObjectOnMovedEvent` handler
    (src/z3c/davapp/zopelocking/manager.py).

The zope.locking package itself (TokenUtility, ExclusiveLock, SharedLock,
the endable-token timeout machinery) is an external collaborator whose
sources are not part of this repository; those pieces are modelled from the
specification's interface contracts (spec sections 4.1 and 4.2), with the
behaviour cross-checked against the doctests shipped in this repository.

Key references are opaque natural numbers; time is a natural-number clock
carried in the state; durations are natural numbers of seconds.
-/

/-- Kinds of zope.locking root tokens. `frozen` stands for any root token
registered by another application that is neither an exclusive nor a shared
write lock (for example a freeze token). -/
inductive TokenKind
  | exclusive
  | shared
  | frozen
deriving DecidableEq, Repr

/-- Per-lock-handle bookkeeping stored under a lock token key inside the
`WEBDAV_LOCK_KEY` annotation: the owner string and the requested depth. -/
structure HandleInfo where
  owner : String
  depth : String
deriving DecidableEq, Repr

/-- The `WEBDAV_LOCK_KEY` annotation of a root token: the optional
"principal_ids" list (absent when the exclusive branch created the mapping)
and the per-lock-handle entries keyed by the opaque lock token. -/
structure WebdavAnnots where
  principal_ids : Option (List String)
  handles : List (Nat × HandleInfo)
deriving DecidableEq, Repr

/-- The open annotations mapping of a root token.  Only the two keys the
code under verification touches are modelled: `INDIRECT_INDEX_KEY` (the
descendant index, mapping a key reference to the indirect token locked for
it) and `WEBDAV_LOCK_KEY`. -/
structure Annotations where
  indirectIndex : Option (List (Nat × Nat))
  webdav : Option WebdavAnnots
deriving DecidableEq, Repr

/-- Modelled from the spec: a zope.locking root token (ExclusiveLock,
SharedLock, or a foreign token), section 3 data model.  `duration` is the
stored lease length; the derived expiration is `started + duration`.
`utility` is the back-reference to the owning registry (by registry id). -/
structure RootTok where
  context : Nat
  kind : TokenKind
  principal_ids : List String
  started : Nat
  duration : Option Nat
  ended : Option Nat
  utility : Option Nat
  annotations : Annotations
deriving DecidableEq, Repr

/-- A reference to a token living in the state: either a root token (by
index into `State.roots`) or an indirect token (by index into
`State.indirects`). -/
inductive TokenRef
  | rootRef (r : Nat)
  | indRef (i : Nat)
deriving DecidableEq, Repr

/-- An `IndirectToken` from indirecttokens.py: the locked target, the
token it was taken out against (`roottoken`), and the `_utility`
back-reference, `none` until registration. -/
structure IndirectTok where
  context : Nat
  roottoken : TokenRef
  utility : Option Nat
deriving DecidableEq, Repr

/-- The whole mutable world: one token utility (registry) with id `uid`,
the current clock value `now`, the heap of root and indirect token objects,
and the registry's identity-to-active-token mapping `locks`. -/
structure State where
  uid : Nat
  now : Nat
  roots : List RootTok
  indirects : List IndirectTok
  locks : List (Nat × TokenRef)
deriving DecidableEq, Repr

/-- Errors raised by the code under verification.  `valueError` carries the
message so that distinct ValueErrors (for example "cannot reset utility"
versus "Unknown lock token") stay distinguishable.  `nonterminating` models
a Python accessor that would recurse forever on a cyclic indirection chain
(never constructible through the public operations). -/
inductive LockErr
  | alreadyLocked
  | registrationError
  | conflictError
  | endedError
  | keyError
  | typeError
  | unprocessable
  | valueError (msg : String)
  | nonterminating
deriving DecidableEq, Repr

def dummyRoot : RootTok :=
  ⟨0, .frozen, [], 0, none, none, none, ⟨none, none⟩⟩

def dummyInd : IndirectTok :=
  ⟨0, .rootRef 0, none⟩

def getRoot (st : State) (r : Nat) : RootTok :=
  st.roots.getD r dummyRoot

def getInd (st : State) (i : Nat) : IndirectTok :=
  st.indirects.getD i dummyInd

def setRoot (st : State) (r : Nat) (t : RootTok) : State :=
  { st with roots := st.roots.set r t }

def setInd (st : State) (i : Nat) (t : IndirectTok) : State :=
  { st with indirects := st.indirects.set i t }

/-- Registry lookup in the raw `locks` association list (no liveness
filtering; compare `TokenUtility.get`). -/
def locksGet (st : State) (k : Nat) : Option TokenRef :=
  (st.locks.find? (fun p => p.1 == k)).map (·.2)

def locksSet (st : State) (k : Nat) (t : TokenRef) : State :=
  { st with locks := (k, t) :: st.locks.filter (fun p => p.1 != k) }

def locksDel (st : State) (k : Nat) : State :=
  { st with locks := st.locks.filter (fun p => p.1 != k) }

/-- Derived expiration timestamp of a root token (`started + duration`),
section 4.2 of the spec. -/
def RootTok.expiration (t : RootTok) : Option Nat :=
  t.duration.map (fun d => t.started + d)

/-- Modelled from the spec: the effective end of a root token at clock
`now` — the recorded `ended` timestamp, or silent expiry when the token is
past its expiration (spec section 4.1: "a token past its expiration is
treated as ended everywhere it is observed"). -/
def RootTok.effEnded (t : RootTok) (now : Nat) : Option Nat :=
  match t.ended with
  | some e => some e
  | none =>
    match t.expiration with
    | some e => if e ≤ now then some e else none
    | none => none

/-- Resolve a token reference to the root token it ultimately delegates to,
following `roottoken` fields through indirect tokens.  The fuel bounds the
walk; `none` means a cyclic chain (Python would recurse forever). -/
def chaseRoot (st : State) : TokenRef → Nat → Option Nat
  | .rootRef r, _ => some r
  | .indRef _, 0 => none
  | .indRef i, fuel + 1 => chaseRoot st (getInd st i).roottoken fuel

def resolveRootId (st : State) (t : TokenRef) : Option Nat :=
  chaseRoot st t st.indirects.length

/-- Effective `ended` of any token reference: indirect tokens delegate to
their root (indirecttokens.py `ended` property).  The outer `none` marks an
unresolvable chain. -/
def refEnded (st : State) (t : TokenRef) : Option (Option Nat) :=
  (resolveRootId st t).map (fun r => (getRoot st r).effEnded st.now)

/-- The `utility` attribute of the token a reference points at (one step,
no delegation: `_utility` is stored per object). -/
def refUtility (st : State) : TokenRef → Option Nat
  | .rootRef r => (getRoot st r).utility
  | .indRef i => (getInd st i).utility

/-- The locked resource (key reference) of the token a reference points
at. -/
def refContext (st : State) : TokenRef → Nat
  | .rootRef r => (getRoot st r).context
  | .indRef i => (getInd st i).context

/-- Read an indirect token's principals: the source property returns
`self.roottoken.principal_ids`, delegating through the chain. -/
def IndirectToken.principal_ids_of (st : State) (i : Nat) : Option (List String) :=
  (resolveRootId st (.indRef i)).map (fun r => (getRoot st r).principal_ids)

/-- Read an indirect token's `started` timestamp (delegates to the root). -/
def IndirectToken.started_of (st : State) (i : Nat) : Option Nat :=
  (resolveRootId st (.indRef i)).map (fun r => (getRoot st r).started)

/-- Read an indirect token's annotations: the source property returns
`self.roottoken.annotations`, the root's mapping itself, never a copy. -/
def IndirectToken.annotations_of (st : State) (i : Nat) : Option Annotations :=
  (resolveRootId st (.indRef i)).map (fun r => (getRoot st r).annotations)

/-- Read an indirect token's `ended` (delegates to the root's endable
state, including silent expiry). -/
def IndirectToken.ended_of (st : State) (i : Nat) : Option (Option Nat) :=
  (resolveRootId st (.indRef i)).map (fun r => (getRoot st r).effEnded st.now)

/-- The `utility` property setter of `IndirectToken` (indirecttokens.py):
refuses to reset to a different value, refuses a registry other than the
root token's, and on a successful first set inserts the indirect token into
the root's descendant index under the target's key reference. -/
def IndirectToken.setUtility (st : State) (i : Nat) (value : Nat) : Except LockErr State :=
  let it := getInd st i
  match it.utility with
  | some u =>
    if value = u then .ok st
    else .error (.valueError "cannot reset utility")
  | none =>
    if refUtility st it.roottoken ≠ some value then
      .error (.valueError "Indirect tokens must be registered with the same utility has the root token")
    else
      match resolveRootId st it.roottoken with
      | none => .error .nonterminating
      | some r =>
        let root := getRoot st r
        let index := root.annotations.indirectIndex.getD []
        if (index.find? (fun p => p.1 == it.context)).isSome then
          .error (.valueError "context is already locked")
        else
          let root' := { root with annotations :=
            { root.annotations with indirectIndex := some (index ++ [(it.context, i)]) } }
          .ok (setInd (setRoot st r root') i { it with utility := some value })

/-- Modelled from the spec: `TokenUtility.register` (spec section 4.1) —
sets the token's `utility` back-reference when unset (which for an indirect
token runs the repository's `IndirectToken` utility setter above), enforces
at most one active token per resource identity (`RegistrationError`),
evicts an ended current entry, and inserts the token only while it is
active (re-registering an ended token thereby removes it, as the cascade
cleanup in section 4.3 relies on). -/
def TokenUtility.register (st : State) (tok : TokenRef) : Except LockErr State :=
  let step1 : Except LockErr State :=
    match refUtility st tok with
    | none =>
      match tok with
      | .rootRef r => .ok (setRoot st r { getRoot st r with utility := some st.uid })
      | .indRef i => IndirectToken.setUtility st i st.uid
    | some u =>
      if u = st.uid then .ok st
      else .error (.valueError "already registered with another utility")
  match step1 with
  | .error e => .error e
  | .ok st1 =>
    let key := refContext st1 tok
    let step2 : Except LockErr State :=
      match locksGet st1 key with
      | none => .ok st1
      | some cur =>
        match refEnded st1 cur with
        | none => .error .nonterminating
        | some none => if cur = tok then .ok st1 else .error .registrationError
        | some (some _) => .ok (locksDel st1 key)
    match step2 with
    | .error e => .error e
    | .ok st2 =>
      match refEnded st2 tok with
      | none => .error .nonterminating
      | some none => .ok (locksSet st2 key tok)
      | some (some _) => .ok st2

/-- Modelled from the spec: `TokenUtility.get` (spec section 4.1) — lookup
that treats an ended or silently expired token as absent.  A chain that
does not resolve (never constructible through this API) is treated as
absent as well. -/
def TokenUtility.get (st : State) (k : Nat) : Option TokenRef :=
  match locksGet st k with
  | none => none
  | some tok =>
    match refEnded st tok with
    | some none => some tok
    | _ => none

/-- Delete one entry from a root token's descendant index
(`del index[key_ref]`); a missing key raises KeyError as in Python. -/
def delIndexEntry (st : State) (r : Nat) (key : Nat) : Except LockErr State :=
  let root := getRoot st r
  let index := root.annotations.indirectIndex.getD []
  if (index.find? (fun p => p.1 == key)).isSome then
    .ok (setRoot st r { root with annotations :=
      { root.annotations with indirectIndex := some (index.filter (fun p => p.1 != key)) } })
  else .error .keyError

/-- The loop body of `removeEndedTokens`: for each snapshotted
`(key reference, indirect token)` pair, re-register the (ended) token
through the registry — which evicts it — and delete its index entry. -/
def cascadeLoop (st : State) (r : Nat) : List (Nat × Nat) → Except LockErr State
  | [] => .ok st
  | (key, tid) :: rest =>
    match TokenUtility.register st (.indRef tid) with
    | .error e => .error e
    | .ok st1 =>
      match delIndexEntry st1 r key with
      | .error e => .error e
      | .ok st2 => cascadeLoop st2 r rest

/-- The `removeEndedTokens` end-event subscriber (indirecttokens.py): reads
the whole descendant index of the root into a snapshot list, then runs the
cascade loop over that snapshot while the live index shrinks underneath. -/
def removeEndedTokens (st : State) (r : Nat) : Except LockErr State :=
  cascadeLoop st r ((getRoot st r).annotations.indirectIndex.getD [])

/-- Modelled from the spec: `Token.end` (spec section 4.2) — EndedError on
a token that has already ended (including silent expiry), otherwise records
the end timestamp and synchronously fires the token-ended event, whose
subscriber is the cascade cleanup `removeEndedTokens`.  Registry eviction
of the root itself is lazy (spec section 4.1 allows lazy eviction;
`TokenUtility.get` treats ended tokens as absent). -/
def endToken (st : State) (r : Nat) : Except LockErr State :=
  let root := getRoot st r
  match root.effEnded st.now with
  | some _ => .error .endedError
  | none => removeEndedTokens (setRoot st r { root with ended := some st.now }) r

/-- Modelled from the spec: `SharedLock.add` (spec sections 4.2 and 4.4) —
EndedError on an ended token, otherwise unions the given principals into
the root's principal set. -/
def SharedLock.add (st : State) (r : Nat) (pids : List String) : Except LockErr State :=
  let root := getRoot st r
  match root.effEnded st.now with
  | some _ => .error .endedError
  | none =>
    .ok (setRoot st r { root with principal_ids :=
      root.principal_ids ++ pids.filter (fun p => !(root.principal_ids.contains p)) })

/-- Modelled from the spec: `SharedLock.remove` (spec sections 3 and 4.4) —
EndedError on an ended token, otherwise removes the given principals from
the root's principal set; removing the last principal ends the token. -/
def SharedLock.remove (st : State) (r : Nat) (pids : List String) : Except LockErr State :=
  let root := getRoot st r
  match root.effEnded st.now with
  | some _ => .error .endedError
  | none =>
    let remaining := root.principal_ids.filter (fun p => !(pids.contains p))
    let st1 := setRoot st r { root with principal_ids := remaining }
    if remaining.isEmpty then endToken st1 r else .ok st1

/-- Modelled from the spec: the `duration` setter of an endable token
(spec section 4.2) — EndedError on an ended token, otherwise updates the
stored lease length (expiration becomes `started + duration`, matching the
token doctests in this repository). -/
def setDuration (st : State) (r : Nat) (d : Nat) : Except LockErr State :=
  let root := getRoot st r
  match root.effEnded st.now with
  | some _ => .error .endedError
  | none => .ok (setRoot st r { root with duration := some d })

/-- Whether `ISharedLock.providedBy` holds of the referenced token: true
exactly for shared root tokens; indirect tokens do not provide the
interface themselves. -/
def ISharedLock.providedBy (st : State) : TokenRef → Bool
  | .rootRef r => (getRoot st r).kind == TokenKind.shared
  | .indRef _ => false

/-- `IndirectToken.add` (indirecttokens.py): TypeError unless the direct
`roottoken` provides `ISharedLock`, otherwise delegates to the root. -/
def IndirectToken.add (st : State) (i : Nat) (pids : List String) : Except LockErr State :=
  let it := getInd st i
  match it.roottoken with
  | .rootRef r =>
    if (getRoot st r).kind ≠ TokenKind.shared then .error .typeError
    else SharedLock.add st r pids
  | .indRef _ => .error .typeError

/-- `IndirectToken.remove` (indirecttokens.py): TypeError unless the direct
`roottoken` provides `ISharedLock`, otherwise delegates to the root. -/
def IndirectToken.remove (st : State) (i : Nat) (pids : List String) : Except LockErr State :=
  let it := getInd st i
  match it.roottoken with
  | .rootRef r =>
    if (getRoot st r).kind ≠ TokenKind.shared then .error .typeError
    else SharedLock.remove st r pids
  | .indRef _ => .error .typeError

/-- An abstract resource tree node: a non-container item or a container
(`IReadContainer`) with its child resources.  Each node carries the stable
key reference used by the registry. -/
inductive Resource
  | item (key : Nat)
  | folder (key : Nat) (children : List Resource)

def Resource.key : Resource → Nat
  | .item k => k
  | .folder k _ => k

/-- `DAVLockmanager.register` (manager.py): delegates to the utility and
translates `RegistrationError` into `AlreadyLocked`. -/
def DAVLockmanager.register (st : State) (tok : TokenRef) : Except LockErr State :=
  match TokenUtility.register st tok with
  | .error .registrationError => .error .alreadyLocked
  | other => other

/-- Append a freshly constructed `IndirectToken(target, roottoken)` to the
heap (its `_utility` starts out unset). -/
def addIndirect (st : State) (key : Nat) (roottok : TokenRef) : State :=
  { st with indirects := st.indirects ++ [⟨key, roottok, none⟩] }

mutual

/-- `DAVLockmanager.maybeRecursivelyLockIndirectly` (manager.py): for an
infinite-depth request on a container, walk the children; a child that
already holds a token aborts with `AlreadyLocked`, otherwise an indirect
token against the root is created, registered, and the walk recurses into
the child.  The returned state reflects every mutation made before a
failure (Python exceptions do not roll anything back). -/
def DAVLockmanager.maybeRecursivelyLockIndirectly (st : State) (ctx : Resource)
    (roottok : TokenRef) (depth : String) : State × Option LockErr :=
  match ctx with
  | .item _ => (st, none)
  | .folder _ cs =>
    if depth = "infinity" then DAVLockmanager.lockChildren st cs roottok depth
    else (st, none)

/-- The `for subob in context.values()` loop body of
`maybeRecursivelyLockIndirectly`. -/
def DAVLockmanager.lockChildren (st : State) (cs : List Resource)
    (roottok : TokenRef) (depth : String) : State × Option LockErr :=
  match cs with
  | [] => (st, none)
  | c :: rest =>
    match TokenUtility.get st c.key with
    | some _ => (st, some .alreadyLocked)
    | none =>
      let tid := st.indirects.length
      let st1 := addIndirect st c.key roottok
      match TokenUtility.register st1 (.indRef tid) with
      | .error e => (st1, some e)
      | .ok st2 =>
        match DAVLockmanager.maybeRecursivelyLockIndirectly st2 c roottok depth with
        | (st3, some e) => (st3, some e)
        | (st3, none) => DAVLockmanager.lockChildren st3 rest roottok depth

end

/-- Overwrite the `WEBDAV_LOCK_KEY` annotation of root token `r`. -/
def setWebdav (st : State) (r : Nat) (wd : WebdavAnnots) : State :=
  let root := getRoot st r
  setRoot st r { root with annotations := { root.annotations with webdav := some wd } }

/-- The common tail of `DAVLockmanager.lock`: store the per-handle entry
`annots[locktoken] = {owner, depth}` on the root's WEBDAV annotation, then
run `maybeRecursivelyLockIndirectly` and return the lock token. -/
def DAVLockmanager.finishLock (st : State) (ctx : Resource) (rid : Nat)
    (owner depth : String) (locktoken : Nat) : State × Except LockErr Nat :=
  let root := getRoot st rid
  let wd := root.annotations.webdav.getD ⟨none, []⟩
  let wd1 := { wd with handles :=
    (wd.handles.filter (fun p => p.1 != locktoken)) ++ [(locktoken, ⟨owner, depth⟩)] }
  let st1 := setWebdav st rid wd1
  match DAVLockmanager.maybeRecursivelyLockIndirectly st1 ctx (.rootRef rid) depth with
  | (st2, none) => (st2, .ok locktoken)
  | (st2, some e) => (st2, .error e)

/-- `DAVLockmanager.lock` (manager.py).  `ty` (the lock type, always
"write") is accepted and ignored exactly as in the source.  The
participating principal and the freshly generated opaque lock token are
passed in explicitly (`getPrincipalId()` and `generateLocktoken()` are
ambient collaborators in the source).  On failure the returned state keeps
every mutation made before the exception. -/
def DAVLockmanager.lock (st : State) (ctx : Resource) (scope ty owner : String)
    (duration : Nat) (depth : String) (principal_id : String) (locktoken : Nat) :
    State × Except LockErr Nat :=
  if scope = "exclusive" then
    let rid := st.roots.length
    let st0 := { st with roots := st.roots ++
      [{ context := ctx.key, kind := .exclusive, principal_ids := [principal_id],
         started := st.now, duration := some duration, ended := none,
         utility := none, annotations := ⟨none, none⟩ }] }
    match DAVLockmanager.register st0 (.rootRef rid) with
    | .error e => (st0, .error e)
    | .ok st1 =>
      let st2 := setWebdav st1 rid ⟨none, []⟩
      DAVLockmanager.finishLock st2 ctx rid owner depth locktoken
  else if scope = "shared" then
    match TokenUtility.get st ctx.key with
    | none =>
      let rid := st.roots.length
      let st0 := { st with roots := st.roots ++
        [{ context := ctx.key, kind := .shared, principal_ids := [principal_id],
           started := st.now, duration := some duration, ended := none,
           utility := none, annotations := ⟨none, none⟩ }] }
      match DAVLockmanager.register st0 (.rootRef rid) with
      | .error e => (st0, .error e)
      | .ok st1 =>
        let st2 := setWebdav st1 rid ⟨some [principal_id], []⟩
        DAVLockmanager.finishLock st2 ctx rid owner depth locktoken
    | some tok =>
      match tok with
      | .indRef _ => (st, .error .alreadyLocked)
      | .rootRef r =>
        if (getRoot st r).kind ≠ TokenKind.shared then (st, .error .alreadyLocked)
        else
          match SharedLock.add st r [principal_id] with
          | .error e => (st, .error e)
          | .ok st1 =>
            match setDuration st1 r duration with
            | .error e => (st1, .error e)
            | .ok st2 =>
              match (getRoot st2 r).annotations.webdav with
              | none =>
                let st3 := setWebdav st2 r ⟨some [principal_id], []⟩
                DAVLockmanager.finishLock st3 ctx r owner depth locktoken
              | some wd =>
                match wd.principal_ids with
                | none => (st2, .error .keyError)
                | some plist =>
                  let st3 := setWebdav st2 r { wd with principal_ids := some (plist ++ [principal_id]) }
                  DAVLockmanager.finishLock st3 ctx r owner depth locktoken
  else (st, .error .unprocessable)

/-- `DAVLockmanager.unlock` (manager.py): ConflictError when the context
holds no active token; one step of indirection resolution; exclusive roots
end directly (cascading); shared roots drop the handle's bookkeeping entry
and one occurrence of the caller's principal, removing the principal from
the token — which ends it when it was the last — only when no occurrence
remains; any other token kind raises ValueError("Unknown lock token").
Failure states keep the mutations made before the exception. -/
def DAVLockmanager.unlock (st : State) (ctx : Resource) (locktoken : Nat)
    (principal_id : String) : State × Option LockErr :=
  match TokenUtility.get st ctx.key with
  | none => (st, some .conflictError)
  | some tok0 =>
    let tok := match tok0 with
      | .indRef i => (getInd st i).roottoken
      | t => t
    match tok with
    | .indRef _ => (st, some (.valueError "Unknown lock token"))
    | .rootRef r =>
      match (getRoot st r).kind with
      | .exclusive =>
        match endToken st r with
        | .ok st1 => (st1, none)
        | .error e => (st, some e)
      | .shared =>
        match (getRoot st r).annotations.webdav with
        | none => (st, some .keyError)
        | some wd =>
          if (wd.handles.find? (fun p => p.1 == locktoken)).isSome then
            let wd1 := { wd with handles := wd.handles.filter (fun p => p.1 != locktoken) }
            match wd1.principal_ids with
            | none => (setWebdav st r wd1, some .keyError)
            | some plist =>
              if principal_id ∈ plist then
                let plist1 := plist.erase principal_id
                let st1 := setWebdav st r { wd1 with principal_ids := some plist1 }
                if principal_id ∈ plist1 then (st1, none)
                else
                  match SharedLock.remove st1 r [principal_id] with
                  | .ok st2 => (st2, none)
                  | .error e => (st1, some e)
              else (setWebdav st r wd1, some (.valueError "list.remove(x): x not in list"))
          else (st, some .keyError)
      | .frozen => (st, some (.valueError "Unknown lock token"))

/-- The container-modification notification the moved-event handler
receives: the affected object and the optional old and new parents (all by
key reference). -/
structure MovedEvent where
  object : Nat
  oldParent : Option Nat
  newParent : Option Nat

/-- The ambient HTTP request as seen by the event handlers: whether it is
an HTTP request at all, its method, and the externally computed
`matchesIfHeader` verdict per resource. -/
structure DavRequest where
  isHTTP : Bool
  method : String
  matchesIfHeader : Nat → Bool

def BROWSER_METHODS : List String := ["GET", "HEAD", "POST"]

/-- `indirectlyLockObjectOnMovedEvent` (manager.py): for non-browser HTTP
requests, a locked object moved out of a parent needs IF-header access; an
object added under a locked parent needs IF-header access to the parent,
must itself be unlocked, and is then indirectly locked against the parent's
token, resolved one step through indirection to its root. -/
def indirectlyLockObjectOnMovedEvent (st : State) (ev : MovedEvent)
    (req : Option DavRequest) : State × Option LockErr :=
  match req with
  | none => (st, none)
  | some rq =>
    if rq.isHTTP && !(BROWSER_METHODS.contains rq.method) then
      let objectToken := TokenUtility.get st ev.object
      if objectToken.isSome && ev.oldParent.isSome && !(rq.matchesIfHeader ev.object) then
        (st, some .alreadyLocked)
      else
        match ev.newParent with
        | none => (st, none)
        | some np =>
          match TokenUtility.get st np with
          | none => (st, none)
          | some parentTok =>
            if !(rq.matchesIfHeader np) then (st, some .alreadyLocked)
            else if objectToken.isSome then (st, some .alreadyLocked)
            else
              let parentTok2 := match parentTok with
                | .indRef i => (getInd st i).roottoken
                | t => t
              let tid := st.indirects.length
              let st1 := addIndirect st ev.object parentTok2
              match TokenUtility.register st1 (.indRef tid) with
              | .ok st2 => (st2, none)
              | .error e => (st1, some e)
    else (st, none)

section ListLemmas

variable {α : Type _}

theorem getD_append_length (l : List α) (x d : α) :
    (l ++ [x]).getD l.length d = x := by
  induction l with
  | nil => rfl
  | cons a t ih => simpa using ih

theorem getD_append_lt (l : List α) (x d : α) (i : Nat) (h : i < l.length) :
    (l ++ [x]).getD i d = l.getD i d := by
  induction l generalizing i with
  | nil => simp at h
  | cons a t ih =>
    cases i with
    | zero => rfl
    | succ j =>
      have hj : j < t.length := by simpa using h
      simpa using ih j hj

theorem set_append_length (l : List α) (x y : α) :
    (l ++ [x]).set l.length y = l ++ [y] := by
  induction l with
  | nil => rfl
  | cons a t ih => simpa using ih

theorem getD_set_self (l : List α) (r : Nat) (x d : α) (h : r < l.length) :
    (l.set r x).getD r d = x := by
  induction l generalizing r with
  | nil => simp at h
  | cons a t ih =>
    cases r with
    | zero => rfl
    | succ j =>
      have hj : j < t.length := by simpa using h
      simpa using ih j hj

theorem getD_set_ne (l : List α) (r r' : Nat) (x d : α) (h : r' ≠ r) :
    (l.set r x).getD r' d = l.getD r' d := by
  induction l generalizing r r' with
  | nil => rfl
  | cons a t ih =>
    cases r with
    | zero =>
      cases r' with
      | zero => exact absurd rfl h
      | succ j => rfl
    | succ j =>
      cases r' with
      | zero => rfl
      | succ j' => simpa using ih j j' (fun he => h (by simpa using he))

theorem length_set_eq (l : List α) (r : Nat) (x : α) :
    (l.set r x).length = l.length := by
  simp

theorem find?_filter_none (l : List α) (p q : α → Bool)
    (h : ∀ a, q a = true → p a = false) : (l.filter p).find? q = none := by
  induction l with
  | nil => rfl
  | cons a t ih =>
    by_cases hp : p a = true
    · have hq : q a = false := by
        cases hqa : q a with
        | false => rfl
        | true => rw [h a hqa] at hp; cases hp
      simp [List.filter_cons, hp, List.find?_cons, hq, ih]
    · have hp' : p a = false := by simpa using hp
      simp [List.filter_cons, hp', ih]

theorem find?_filter_sub (l : List α) (p q : α → Bool)
    (h : ∀ a, q a = true → p a = true) : (l.filter p).find? q = l.find? q := by
  induction l with
  | nil => rfl
  | cons a t ih =>
    cases hqa : q a with
    | true =>
      have hpa := h a hqa
      simp [List.filter_cons, hpa, List.find?_cons, hqa]
    | false =>
      by_cases hp : p a = true
      · simp [List.filter_cons, hp, List.find?_cons, hqa, ih]
      · have hp' : p a = false := by simpa using hp
        simp [List.filter_cons, hp', List.find?_cons, hqa, ih]

end ListLemmas

section StateLemmas

theorem locksGet_locksSet_self (st : State) (k : Nat) (t : TokenRef) :
    locksGet (locksSet st k t) k = some t := by
  simp [locksGet, locksSet, List.find?_cons]

theorem locksGet_locksSet_ne (st : State) (k k' : Nat) (t : TokenRef) (h : k' ≠ k) :
    locksGet (locksSet st k t) k' = locksGet st k' := by
  have hk : (k == k') = false := by
    simpa [beq_iff_eq] using fun he => h he.symm
  simp only [locksGet, locksSet, List.find?_cons, hk]
  rw [find?_filter_sub]
  intro a ha
  have : a.1 = k' := by simpa [beq_iff_eq] using ha
  simp [bne_iff_ne, this, h]

theorem locksGet_locksDel_self (st : State) (k : Nat) :
    locksGet (locksDel st k) k = none := by
  simp only [locksGet, locksDel]
  rw [find?_filter_none]
  · simp
  · intro a ha
    have : a.1 = k := by simpa [beq_iff_eq] using ha
    simp [bne_iff_ne, this]

theorem locksGet_locksDel_ne (st : State) (k k' : Nat) (h : k' ≠ k) :
    locksGet (locksDel st k) k' = locksGet st k' := by
  simp only [locksGet, locksDel]
  rw [find?_filter_sub]
  intro a ha
  have : a.1 = k' := by simpa [beq_iff_eq] using ha
  simp [bne_iff_ne, this, h]

theorem getRoot_setRoot_self (st : State) (r : Nat) (t : RootTok)
    (h : r < st.roots.length) : getRoot (setRoot st r t) r = t := by
  simp only [getRoot, setRoot]
  exact getD_set_self _ _ _ _ h

theorem getRoot_setRoot_ne (st : State) (r r' : Nat) (t : RootTok) (h : r' ≠ r) :
    getRoot (setRoot st r t) r' = getRoot st r' := by
  simp only [getRoot, setRoot]
  exact getD_set_ne _ _ _ _ _ h

theorem getInd_setInd_self (st : State) (i : Nat) (t : IndirectTok)
    (h : i < st.indirects.length) : getInd (setInd st i t) i = t := by
  simp only [getInd, setInd]
  exact getD_set_self _ _ _ _ h

theorem getInd_setInd_ne (st : State) (i i' : Nat) (t : IndirectTok) (h : i' ≠ i) :
    getInd (setInd st i t) i' = getInd st i' := by
  simp only [getInd, setInd]
  exact getD_set_ne _ _ _ _ _ h

theorem getInd_addIndirect_last (st : State) (k : Nat) (tok : TokenRef) :
    getInd (addIndirect st k tok) st.indirects.length = ⟨k, tok, none⟩ := by
  simp only [getInd, addIndirect]
  exact getD_append_length _ _ _

theorem getInd_addIndirect_lt (st : State) (k : Nat) (tok : TokenRef) (i : Nat)
    (h : i < st.indirects.length) :
    getInd (addIndirect st k tok) i = getInd st i := by
  simp only [getInd, addIndirect]
  exact getD_append_lt _ _ _ _ h

theorem getRoot_addIndirect (st : State) (k : Nat) (tok : TokenRef) (r : Nat) :
    getRoot (addIndirect st k tok) r = getRoot st r := by
  simp [getRoot, addIndirect]

theorem getRoot_setInd (st : State) (i : Nat) (t : IndirectTok) (r : Nat) :
    getRoot (setInd st i t) r = getRoot st r := by
  simp [getRoot, setInd]

theorem getInd_setRoot (st : State) (r : Nat) (t : RootTok) (i : Nat) :
    getInd (setRoot st r t) i = getInd st i := by
  simp [getInd, setRoot]

theorem getRoot_locksSet (st : State) (k : Nat) (t : TokenRef) (r : Nat) :
    getRoot (locksSet st k t) r = getRoot st r := rfl

theorem getRoot_locksDel (st : State) (k : Nat) (r : Nat) :
    getRoot (locksDel st k) r = getRoot st r := rfl

theorem getInd_locksSet (st : State) (k : Nat) (t : TokenRef) (i : Nat) :
    getInd (locksSet st k t) i = getInd st i := rfl

theorem getInd_locksDel (st : State) (k : Nat) (i : Nat) :
    getInd (locksDel st k) i = getInd st i := rfl

theorem resolveRootId_indRef (st : State) (i r : Nat) (hi : i < st.indirects.length)
    (hr : (getInd st i).roottoken = .rootRef r) :
    resolveRootId st (.indRef i) = some r := by
  obtain ⟨m, hm⟩ : ∃ m, st.indirects.length = m + 1 :=
    ⟨st.indirects.length - 1, by omega⟩
  simp [resolveRootId, hm, chaseRoot, hr]

theorem chaseRoot_rootRef (st : State) (r fuel : Nat) :
    chaseRoot st (.rootRef r) fuel = some r := by
  cases fuel <;> rfl

theorem resolveRootId_rootRef (st : State) (r : Nat) :
    resolveRootId st (.rootRef r) = some r := by
  simp [resolveRootId, chaseRoot_rootRef]

end StateLemmas

/-- C3: for an indirect token I whose `roottoken` is root token T, reading
`principal_ids`, `started` and `ended` on I yields exactly T's values, the
`annotations` read on I yields T's annotations mapping, and the mapping is
shared by reference: any replacement of T's annotations is observed
unchanged through I's accessor.  Every such read delegates to the root. -/
theorem indirect_delegation_consistency (st : State) (i r : Nat)
    (hi : i < st.indirects.length) (hr : r < st.roots.length)
    (hroot : (getInd st i).roottoken = .rootRef r) :
    IndirectToken.principal_ids_of st i = some ((getRoot st r).principal_ids) ∧
    IndirectToken.started_of st i = some ((getRoot st r).started) ∧
    IndirectToken.ended_of st i = some ((getRoot st r).effEnded st.now) ∧
    IndirectToken.annotations_of st i = some ((getRoot st r).annotations) ∧
    ∀ a : Annotations,
      IndirectToken.annotations_of
        (setRoot st r { getRoot st r with annotations := a }) i = some a := by
  have hres : resolveRootId st (.indRef i) = some r := resolveRootId_indRef st i r hi hroot
  refine ⟨?_, ?_, ?_, ?_, ?_⟩
  · simp [IndirectToken.principal_ids_of, hres]
  · simp [IndirectToken.started_of, hres]
  · simp [IndirectToken.ended_of, hres]
  · simp [IndirectToken.annotations_of, hres]
  · intro a
    set st' := setRoot st r { getRoot st r with annotations := a } with hst'
    have hi' : i < st'.indirects.length := by simpa [hst', setRoot] using hi
    have hroot' : (getInd st' i).roottoken = .rootRef r := by
      rw [hst', getInd_setRoot]; exact hroot
    have hres' : resolveRootId st' (.indRef i) = some r :=
      resolveRootId_indRef st' i r hi' hroot'
    have hgr : getRoot st' r = { getRoot st r with annotations := a } :=
      getRoot_setRoot_self st r _ hr
    simp [IndirectToken.annotations_of, hres', hgr]

theorem indirect_delegation_consistency_witness :
    (0 : Nat) < 1 ∧ (0 : Nat) < 1 ∧
    (getInd { uid := 0, now := 0,
              roots := [{ context := 1, kind := .exclusive, principal_ids := ["m"],
                          started := 5, duration := none, ended := none,
                          utility := some 0, annotations := ⟨none, none⟩ }],
              indirects := [⟨2, .rootRef 0, some 0⟩],
              locks := [] } 0).roottoken = .rootRef 0 ∧
    IndirectToken.principal_ids_of
      { uid := 0, now := 0,
        roots := [{ context := 1, kind := .exclusive, principal_ids := ["m"],
                    started := 5, duration := none, ended := none,
                    utility := some 0, annotations := ⟨none, none⟩ }],
        indirects := [⟨2, .rootRef 0, some 0⟩],
        locks := [] } 0 = some ["m"] :=
  ⟨by decide, by decide, by decide,
    (indirect_delegation_consistency _ 0 0 (by decide) (by decide) (by decide)).1⟩

/-- C8: `add`/`remove` on an indirect token raise TypeError whenever the
direct root token is not a shared lock, and delegate to the shared root's
own add/remove otherwise. -/
theorem indirect_add_remove_shared_gate (st : State) (i r : Nat) (pids : List String)
    (hroot : (getInd st i).roottoken = .rootRef r) :
    ((getRoot st r).kind ≠ TokenKind.shared →
      IndirectToken.add st i pids = .error .typeError ∧
      IndirectToken.remove st i pids = .error .typeError) ∧
    ((getRoot st r).kind = TokenKind.shared →
      IndirectToken.add st i pids = SharedLock.add st r pids ∧
      IndirectToken.remove st i pids = SharedLock.remove st r pids) := by
  constructor
  · intro hk
    constructor
    · simp [IndirectToken.add, hroot, hk]
    · simp [IndirectToken.remove, hroot, hk]
  · intro hk
    constructor
    · simp [IndirectToken.add, hroot, hk]
    · simp [IndirectToken.remove, hroot, hk]

theorem indirect_add_remove_shared_gate_witness :
    (getInd { uid := 0, now := 0,
              roots := [{ context := 1, kind := .exclusive, principal_ids := ["m"],
                          started := 5, duration := none, ended := none,
                          utility := some 0, annotations := ⟨none, none⟩ }],
              indirects := [⟨2, .rootRef 0, some 0⟩],
              locks := [] } 0).roottoken = .rootRef 0 ∧
    IndirectToken.add
      { uid := 0, now := 0,
        roots := [{ context := 1, kind := .exclusive, principal_ids := ["m"],
                    started := 5, duration := none, ended := none,
                    utility := some 0, annotations := ⟨none, none⟩ }],
        indirects := [⟨2, .rootRef 0, some 0⟩],
        locks := [] } 0 ["j"] = .error .typeError :=
  ⟨by decide,
    ((indirect_add_remove_shared_gate _ 0 0 ["j"] (by decide)).1 (by decide)).1⟩

/-- C10: when the active token resolved for the context is a root token
that is neither an exclusive nor a shared lock (a foreign token such as a
freeze token), unlock raises ValueError("Unknown lock token") and leaves
the state — hence the token's registration and active status — unchanged. -/
theorem unlock_unknown_kind_valueerror (st : State) (ctx : Resource)
    (locktoken : Nat) (principal_id : String) (r : Nat)
    (hget : TokenUtility.get st ctx.key = some (.rootRef r))
    (hkind : (getRoot st r).kind = TokenKind.frozen) :
    DAVLockmanager.unlock st ctx locktoken principal_id =
      (st, some (.valueError "Unknown lock token")) ∧
    TokenUtility.get st ctx.key = some (.rootRef r) := by
  refine ⟨?_, hget⟩
  simp [DAVLockmanager.unlock, hget, hkind]

theorem unlock_unknown_kind_valueerror_witness :
    TokenUtility.get
      { uid := 0, now := 0,
        roots := [{ context := 3, kind := .frozen, principal_ids := [],
                    started := 0, duration := none, ended := none,
                    utility := some 0, annotations := ⟨none, none⟩ }],
        indirects := [],
        locks := [(3, .rootRef 0)] } (Resource.item 3).key = some (.rootRef 0) ∧
    DAVLockmanager.unlock
      { uid := 0, now := 0,
        roots := [{ context := 3, kind := .frozen, principal_ids := [],
                    started := 0, duration := none, ended := none,
                    utility := some 0, annotations := ⟨none, none⟩ }],
        indirects := [],
        locks := [(3, .rootRef 0)] } (Resource.item 3) 9 "m" =
      ({ uid := 0, now := 0,
         roots := [{ context := 3, kind := .frozen, principal_ids := [],
                     started := 0, duration := none, ended := none,
                     utility := some 0, annotations := ⟨none, none⟩ }],
         indirects := [],
         locks := [(3, .rootRef 0)] }, some (.valueError "Unknown lock token")) :=
  ⟨by decide,
    (unlock_unknown_kind_valueerror _ _ 9 "m" 0 (by decide) (by decide)).1⟩

/-- C9 counterexample: the claim says any attempt to set an indirect
token's `utility` again is an error, but assigning the very same registry a
second time is a silent no-op in the source (`if value is not
self._utility` guards the ValueError), so the second set below succeeds. -/
theorem utility_reset_same_value_not_error :
    IndirectToken.setUtility
      { uid := 7, now := 0,
        roots := [{ context := 1, kind := .exclusive, principal_ids := ["m"],
                    started := 0, duration := none, ended := none,
                    utility := some 7, annotations := ⟨some [(2, 0)], none⟩ }],
        indirects := [⟨2, .rootRef 0, some 7⟩],
        locks := [(1, .rootRef 0), (2, .indRef 0)] } 0 7 =
    .ok
      { uid := 7, now := 0,
        roots := [{ context := 1, kind := .exclusive, principal_ids := ["m"],
                    started := 0, duration := none, ended := none,
                    utility := some 7, annotations := ⟨some [(2, 0)], none⟩ }],
        indirects := [⟨2, .rootRef 0, some 7⟩],
        locks := [(1, .rootRef 0), (2, .indRef 0)] } := by rfl

/-- C9 (amended): an indirect token's `utility` is set at most once with a
real effect.  Re-setting it to a different registry raises
ValueError("cannot reset utility") while re-setting it to the same registry
is a silent no-op; at the first set, a registry different from the root
token's raises ValueError, and a successful first set records the registry
and inserts the indirect token into the root's descendant index under the
target's key reference. -/
theorem utility_set_once_amended (st : State) (i v : Nat) :
    (∀ u, (getInd st i).utility = some u → u ≠ v →
      IndirectToken.setUtility st i v = .error (.valueError "cannot reset utility")) ∧
    (∀ u, (getInd st i).utility = some u → u = v →
      IndirectToken.setUtility st i v = .ok st) ∧
    (∀ r, (getInd st i).utility = none → (getInd st i).roottoken = .rootRef r →
      (getRoot st r).utility ≠ some v →
      IndirectToken.setUtility st i v =
        .error (.valueError "Indirect tokens must be registered with the same utility has the root token")) ∧
    (∀ r, (getInd st i).utility = none → (getInd st i).roottoken = .rootRef r →
      (getRoot st r).utility = some v →
      i < st.indirects.length → r < st.roots.length →
      (((getRoot st r).annotations.indirectIndex.getD []).find?
        (fun p => p.1 == (getInd st i).context)) = none →
      ∃ st', IndirectToken.setUtility st i v = .ok st' ∧
        (getInd st' i).utility = some v ∧
        (getInd st' i).roottoken = (getInd st i).roottoken ∧
        (getRoot st' r).annotations.indirectIndex =
          some (((getRoot st r).annotations.indirectIndex.getD []) ++
                [((getInd st i).context, i)])) := by
  refine ⟨?_, ?_, ?_, ?_⟩
  · intro u hu hne
    have hvu : ¬ (v = u) := fun h => hne h.symm
    simp [IndirectToken.setUtility, hu, hvu]
  · intro u hu heq
    subst heq
    simp [IndirectToken.setUtility, hu]
  · intro r hu hroot hne
    have : refUtility st (getInd st i).roottoken ≠ some v := by
      rw [hroot]; exact hne
    simp [IndirectToken.setUtility, hu, this]
  · intro r hu hroot hutil hi hr hfind
    have hrefu : refUtility st (getInd st i).roottoken = some v := by
      rw [hroot]; exact hutil
    have hres : resolveRootId st (getInd st i).roottoken = some r := by
      rw [hroot]; exact resolveRootId_rootRef st r
    refine ⟨setInd (setRoot st r
        { getRoot st r with annotations := (Annotations.mk
            (some (((getRoot st r).annotations.indirectIndex.getD []) ++
              [((getInd st i).context, i)]))
            ((getRoot st r).annotations.webdav)) }) i
        { getInd st i with utility := some v }, ?_, ?_, ?_, ?_⟩
    · simp [IndirectToken.setUtility, hu, hrefu, hres, hfind]
    · rw [getInd_setInd_self]
      simpa [setRoot] using hi
    · rw [getInd_setInd_self]
      · simpa [setRoot] using hi
    · rw [getRoot_setInd, getRoot_setRoot_self st r _ hr]

theorem utility_set_once_amended_witness :
    (getInd { uid := 7, now := 0,
              roots := [{ context := 1, kind := .exclusive, principal_ids := ["m"],
                          started := 0, duration := none, ended := none,
                          utility := some 7, annotations := ⟨none, none⟩ }],
              indirects := [⟨2, .rootRef 0, some 3⟩],
              locks := [] } 0).utility = some 3 ∧ (3 : Nat) ≠ 7 ∧
    IndirectToken.setUtility
      { uid := 7, now := 0,
        roots := [{ context := 1, kind := .exclusive, principal_ids := ["m"],
                    started := 0, duration := none, ended := none,
                    utility := some 7, annotations := ⟨none, none⟩ }],
        indirects := [⟨2, .rootRef 0, some 3⟩],
        locks := [] } 0 7 = .error (.valueError "cannot reset utility") :=
  ⟨by decide, by decide,
    (utility_set_once_amended _ 0 7).1 3 (by decide) (by decide)⟩

/-- C7 counterexample: one principal takes two shared locks (handles 1 and
2) on resource 20; unlocking handle 1 succeeds and leaves the root token
active for handle 2, and a second unlock of handle 1 then raises KeyError
(from `del annots[locktoken]` on the missing key), not ConflictError as the
claim states for every handle. -/
theorem unlock_twice_shared_keyerror_not_conflicterror :
    DAVLockmanager.unlock
      { uid := 7, now := 100,
        roots := [{ context := 20, kind := .shared, principal_ids := ["michael"],
                    started := 100, duration := some 1800, ended := none,
                    utility := some 7,
                    annotations := ⟨none, some ⟨some ["michael", "michael"],
                      [(1, ⟨"M", "0"⟩), (2, ⟨"M2", "0"⟩)]⟩⟩ }],
        indirects := [], locks := [(20, .rootRef 0)] } (.item 20) 1 "michael" =
      ({ uid := 7, now := 100,
         roots := [{ context := 20, kind := .shared, principal_ids := ["michael"],
                     started := 100, duration := some 1800, ended := none,
                     utility := some 7,
                     annotations := ⟨none, some ⟨some ["michael"],
                       [(2, ⟨"M2", "0"⟩)]⟩⟩ }],
         indirects := [], locks := [(20, .rootRef 0)] }, none) ∧
    DAVLockmanager.unlock
      { uid := 7, now := 100,
        roots := [{ context := 20, kind := .shared, principal_ids := ["michael"],
                    started := 100, duration := some 1800, ended := none,
                    utility := some 7,
                    annotations := ⟨none, some ⟨some ["michael"],
                      [(2, ⟨"M2", "0"⟩)]⟩⟩ }],
        indirects := [], locks := [(20, .rootRef 0)] } (.item 20) 1 "michael" =
      ({ uid := 7, now := 100,
         roots := [{ context := 20, kind := .shared, principal_ids := ["michael"],
                     started := 100, duration := some 1800, ended := none,
                     utility := some 7,
                     annotations := ⟨none, some ⟨some ["michael"],
                       [(2, ⟨"M2", "0"⟩)]⟩⟩ }],
         indirects := [], locks := [(20, .rootRef 0)] }, some .keyError) ∧
    LockErr.keyError ≠ LockErr.conflictError := by
  refine ⟨by rfl, by rfl, by decide⟩

/-- C7 (amended): a second unlock of the same handle raises ConflictError
exactly when the first unlock left the resource without an active token
(the exclusive case, and the shared case once the last principal is gone);
when the shared root token survives because other handles remain, the
second unlock of the already-removed handle raises KeyError instead. -/
theorem unlock_after_unlock_amended (st : State) (ctx : Resource)
    (locktoken : Nat) (principal_id : String) (r : Nat) (wd : WebdavAnnots) :
    (TokenUtility.get st ctx.key = none →
      DAVLockmanager.unlock st ctx locktoken principal_id =
        (st, some .conflictError)) ∧
    (TokenUtility.get st ctx.key = some (.rootRef r) →
      (getRoot st r).kind = TokenKind.shared →
      (getRoot st r).annotations.webdav = some wd →
      wd.handles.find? (fun p => p.1 == locktoken) = none →
      DAVLockmanager.unlock st ctx locktoken principal_id =
        (st, some .keyError)) := by
  constructor
  · intro hget
    simp [DAVLockmanager.unlock, hget]
  · intro hget hkind hwd hfind
    simp [DAVLockmanager.unlock, hget, hkind, hwd, hfind]

theorem unlock_after_unlock_amended_witness :
    TokenUtility.get
      { uid := 0, now := 0, roots := [], indirects := [], locks := [] }
      (Resource.item 3).key = none ∧
    DAVLockmanager.unlock
      { uid := 0, now := 0, roots := [], indirects := [], locks := [] }
      (Resource.item 3) 1 "m" =
      ({ uid := 0, now := 0, roots := [], indirects := [], locks := [] },
        some .conflictError) :=
  ⟨by decide,
    (unlock_after_unlock_amended _ _ 1 "m" 0 ⟨none, []⟩).1 (by decide)⟩

theorem get_inv (st : State) (k : Nat) (tok : TokenRef)
    (h : TokenUtility.get st k = some tok) :
    locksGet st k = some tok ∧ refEnded st tok = some none := by
  unfold TokenUtility.get at h
  cases hlg : locksGet st k with
  | none =>
    simp only [hlg] at h
    exact Option.noConfusion h
  | some t =>
    simp only [hlg] at h
    cases hre : refEnded st t with
    | none =>
      simp only [hre] at h
      exact Option.noConfusion h
    | some o =>
      cases o with
      | none =>
        simp only [hre, Option.some.injEq] at h
        subst h
        exact ⟨rfl, hre⟩
      | some e =>
        simp only [hre] at h
        exact Option.noConfusion h

theorem get_root_intro (st : State) (k r : Nat)
    (hlg : locksGet st k = some (.rootRef r))
    (heff : (getRoot st r).effEnded st.now = none) :
    TokenUtility.get st k = some (.rootRef r) := by
  simp [TokenUtility.get, hlg, refEnded, resolveRootId_rootRef, heff]

theorem get_root_effEnded_none (st : State) (k r : Nat)
    (h : TokenUtility.get st k = some (.rootRef r)) :
    (getRoot st r).effEnded st.now = none := by
  obtain ⟨-, hre⟩ := get_inv st k _ h
  simpa [refEnded, resolveRootId_rootRef] using hre

theorem effEnded_none_ended (t : RootTok) (now : Nat) (h : t.effEnded now = none) :
    t.ended = none := by
  unfold RootTok.effEnded at h
  cases he : t.ended with
  | none => rfl
  | some e => simp only [he] at h; exact h

theorem locksGet_setRoot (st : State) (r : Nat) (t : RootTok) (k : Nat) :
    locksGet (setRoot st r t) k = locksGet st k := rfl

theorem locksGet_setInd (st : State) (i : Nat) (t : IndirectTok) (k : Nat) :
    locksGet (setInd st i t) k = locksGet st k := rfl

theorem locksGet_addIndirect (st : State) (key : Nat) (tok : TokenRef) (k : Nat) :
    locksGet (addIndirect st key tok) k = locksGet st k := rfl

/-- C5: a shared lock request on a resource already holding an active
shared root token joins the existing root instead of creating a second root
token: the requesting principal is added to the root token, the root's
duration is overwritten with the new request's duration (last request
wins), the WEBDAV bookkeeping gains the new principal occurrence and the
new handle entry, and the same root stays the registered active token. -/
theorem shared_lock_joins_existing_root (st : State) (ctx : Resource)
    (ty owner : String) (duration : Nat) (depth : String)
    (principal_id : String) (locktoken : Nat) (r : Nat)
    (wd : WebdavAnnots) (plist : List String)
    (hget : TokenUtility.get st ctx.key = some (.rootRef r))
    (hr : r < st.roots.length)
    (hkind : (getRoot st r).kind = TokenKind.shared)
    (hwd : (getRoot st r).annotations.webdav = some wd)
    (hpl : wd.principal_ids = some plist)
    (hdepth : depth ≠ "infinity")
    (hmem : (getRoot st r).principal_ids.contains principal_id = false)
    (hlive : st.now < (getRoot st r).started + duration) :
    ∃ st',
      DAVLockmanager.lock st ctx "shared" ty owner duration depth
        principal_id locktoken = (st', .ok locktoken) ∧
      st'.roots.length = st.roots.length ∧
      TokenUtility.get st' ctx.key = some (.rootRef r) ∧
      (getRoot st' r).principal_ids =
        (getRoot st r).principal_ids ++ [principal_id] ∧
      (getRoot st' r).duration = some duration ∧
      (getRoot st' r).annotations.webdav = some
        ⟨some (plist ++ [principal_id]),
         (wd.handles.filter (fun q => q.1 != locktoken)) ++
           [(locktoken, ⟨owner, depth⟩)]⟩ := by
  obtain ⟨hlg, -⟩ := get_inv st ctx.key _ hget
  have heff : (getRoot st r).effEnded st.now = none :=
    get_root_effEnded_none st ctx.key r hget
  have hendnone : (getRoot st r).ended = none := effEnded_none_ended _ _ heff
  have hmem' : ¬ principal_id ∈ (getRoot st r).principal_ids := by
    simpa using hmem
  have hmrAny : ∀ s : State, DAVLockmanager.maybeRecursivelyLockIndirectly s ctx
      (.rootRef r) depth = (s, none) := by
    intro s
    cases ctx with
    | item k => rfl
    | folder k cs => simp [DAVLockmanager.maybeRecursivelyLockIndirectly, hdepth]
  -- step 1: SharedLock.add
  obtain ⟨st1, hst1⟩ : ∃ s, setRoot st r { getRoot st r with principal_ids :=
      (getRoot st r).principal_ids ++ [principal_id] } = s := ⟨_, rfl⟩
  have hadd : SharedLock.add st r [principal_id] = .ok st1 := by
    rw [← hst1]
    simp [SharedLock.add, heff, hmem']
  have hlen1 : st1.roots.length = st.roots.length := by
    rw [← hst1]; simp [setRoot]
  have hr1 : r < st1.roots.length := by rw [hlen1]; exact hr
  have hg1 : getRoot st1 r = { getRoot st r with principal_ids :=
      (getRoot st r).principal_ids ++ [principal_id] } := by
    rw [← hst1]; exact getRoot_setRoot_self st r _ hr
  have hnow1 : st1.now = st.now := by rw [← hst1]; exact rfl
  have hlocks1 : locksGet st1 ctx.key = locksGet st ctx.key := by
    rw [← hst1]; exact rfl
  -- step 2: setDuration
  obtain ⟨st2, hst2⟩ : ∃ s, setRoot st1 r { getRoot st1 r with
      duration := some duration } = s := ⟨_, rfl⟩
  have heff1 : (getRoot st1 r).effEnded st1.now = none := by
    rw [hg1, hnow1]
    exact heff
  have hdur : setDuration st1 r duration = .ok st2 := by
    rw [← hst2]
    simp [setDuration, heff1]
  have hlen2 : st2.roots.length = st.roots.length := by
    rw [← hst2]; simp [setRoot, hlen1]
  have hr2 : r < st2.roots.length := by rw [hlen2]; exact hr
  have hg2 : getRoot st2 r = { getRoot st1 r with duration := some duration } := by
    rw [← hst2]; exact getRoot_setRoot_self st1 r _ hr1
  have hnow2 : st2.now = st.now := by
    rw [← hst2]; exact hnow1
  have hlocks2 : locksGet st2 ctx.key = locksGet st ctx.key := by
    rw [← hst2]; exact hlocks1
  have hann2 : (getRoot st2 r).annotations.webdav = some wd := by
    rw [hg2, hg1]
    exact hwd
  -- step 3: webdav principal_ids append
  obtain ⟨st3, hst3⟩ : ∃ s,
      setWebdav st2 r { wd with principal_ids := some (plist ++ [principal_id]) } = s :=
    ⟨_, rfl⟩
  have hlen3 : st3.roots.length = st.roots.length := by
    rw [← hst3]; simp [setWebdav, setRoot, hlen2]
  have hr3 : r < st3.roots.length := by rw [hlen3]; exact hr
  have hg3 : getRoot st3 r = { getRoot st2 r with annotations :=
      ⟨(getRoot st2 r).annotations.indirectIndex,
       some { wd with principal_ids := some (plist ++ [principal_id]) }⟩ } := by
    rw [← hst3, setWebdav, getRoot_setRoot_self st2 r _ hr2]
  have hnow3 : st3.now = st.now := by
    rw [← hst3, setWebdav]; exact hnow2
  have hlocks3 : locksGet st3 ctx.key = locksGet st ctx.key := by
    rw [← hst3, setWebdav]; exact hlocks2
  have hann3 : (getRoot st3 r).annotations.webdav =
      some { wd with principal_ids := some (plist ++ [principal_id]) } := by
    rw [hg3]
  -- step 4: finishLock
  obtain ⟨st4, hst4⟩ : ∃ s, setWebdav st3 r
      { { wd with principal_ids := some (plist ++ [principal_id]) } with handles :=
        (({ wd with principal_ids := some (plist ++ [principal_id]) } : WebdavAnnots).handles.filter
          (fun p => p.1 != locktoken)) ++ [(locktoken, ⟨owner, depth⟩)] } = s := ⟨_, rfl⟩
  have hfin : DAVLockmanager.finishLock st3 ctx r owner depth locktoken =
      (st4, .ok locktoken) := by
    simp only [DAVLockmanager.finishLock, hann3, Option.getD_some, hst4, hmrAny st4]
  have hlen4 : st4.roots.length = st.roots.length := by
    rw [← hst4]; simp [setWebdav, setRoot, hlen3]
  have hr4 : r < st4.roots.length := by rw [hlen4]; exact hr
  have hg4 : getRoot st4 r = { getRoot st3 r with annotations :=
      ⟨(getRoot st3 r).annotations.indirectIndex,
       some ⟨some (plist ++ [principal_id]),
         (wd.handles.filter (fun p => p.1 != locktoken)) ++
           [(locktoken, ⟨owner, depth⟩)]⟩⟩ } := by
    rw [← hst4, setWebdav, getRoot_setRoot_self st3 r _ hr3]
  have hnow4 : st4.now = st.now := by
    rw [← hst4, setWebdav]; exact hnow3
  have hlocks4 : locksGet st4 ctx.key = locksGet st ctx.key := by
    rw [← hst4, setWebdav]; exact hlocks3
  -- assemble the lock computation
  have hne : ("shared" : String) ≠ "exclusive" := by decide
  have hknot : ¬ ((getRoot st r).kind ≠ TokenKind.shared) := by simp [hkind]
  have hlock : DAVLockmanager.lock st ctx "shared" ty owner duration depth
      principal_id locktoken = (st4, .ok locktoken) := by
    unfold DAVLockmanager.lock
    rw [if_neg hne, if_pos rfl]
    simp only [hget]
    simp only [if_neg hknot]
    simp only [hadd]
    simp only [hdur]
    simp only [hann2]
    simp only [hpl]
    simp only [hst3]
    exact hfin
  refine ⟨st4, hlock, hlen4, ?_, ?_, ?_, ?_⟩
  · have heff4 : (getRoot st4 r).effEnded st4.now = none := by
      rw [hg4, hg3, hg2, hg1, hnow4]
      simp only [RootTok.effEnded, RootTok.expiration, hendnone]
      simp [Nat.not_le.mpr hlive]
    refine get_root_intro st4 ctx.key r ?_ heff4
    rw [hlocks4]; exact hlg
  · rw [hg4, hg3, hg2, hg1]
  · rw [hg4, hg3, hg2]
  · rw [hg4]

theorem shared_lock_joins_existing_root_witness :
    TokenUtility.get
      { uid := 0, now := 100,
        roots := [{ context := 20, kind := .shared, principal_ids := ["a"],
                    started := 100, duration := some 3600, ended := none,
                    utility := some 0,
                    annotations := ⟨none, some ⟨some ["a"], [(1, ⟨"A", "0"⟩)]⟩⟩ }],
        indirects := [], locks := [(20, .rootRef 0)] }
      (Resource.item 20).key = some (.rootRef 0) ∧
    ∃ st',
      DAVLockmanager.lock
        { uid := 0, now := 100,
          roots := [{ context := 20, kind := .shared, principal_ids := ["a"],
                      started := 100, duration := some 3600, ended := none,
                      utility := some 0,
                      annotations := ⟨none, some ⟨some ["a"], [(1, ⟨"A", "0"⟩)]⟩⟩ }],
          indirects := [], locks := [(20, .rootRef 0)] }
        (.item 20) "shared" "write" "B" 1800 "0" "b" 2 = (st', .ok 2) ∧
      st'.roots.length =
        ({ uid := 0, now := 100,
           roots := [{ context := 20, kind := .shared, principal_ids := ["a"],
                       started := 100, duration := some 3600, ended := none,
                       utility := some 0,
                       annotations := ⟨none, some ⟨some ["a"], [(1, ⟨"A", "0"⟩)]⟩⟩ }],
           indirects := [], locks := [(20, .rootRef 0)] } : State).roots.length ∧
      TokenUtility.get st' (Resource.item 20).key = some (.rootRef 0) ∧
      (getRoot st' 0).principal_ids =
        (getRoot
          { uid := 0, now := 100,
            roots := [{ context := 20, kind := .shared, principal_ids := ["a"],
                        started := 100, duration := some 3600, ended := none,
                        utility := some 0,
                        annotations := ⟨none, some ⟨some ["a"], [(1, ⟨"A", "0"⟩)]⟩⟩ }],
            indirects := [], locks := [(20, .rootRef 0)] } 0).principal_ids ++ ["b"] ∧
      (getRoot st' 0).duration = some 1800 ∧
      (getRoot st' 0).annotations.webdav = some
        ⟨some (["a"] ++ ["b"]),
         (([(1, ⟨"A", "0"⟩)] : List (Nat × HandleInfo)).filter (fun q => q.1 != 2)) ++
           [(2, ⟨"B", "0"⟩)]⟩ :=
  ⟨by decide,
    shared_lock_joins_existing_root _ (.item 20) "write" "B" 1800 "0" "b" 2 0
      ⟨some ["a"], [(1, ⟨"A", "0"⟩)]⟩ ["a"] (by decide) (by decide) (by decide)
      (by decide) (by decide) (by decide) (by decide) (by decide)⟩

theorem filter_ne_of_nodup (l : List String) (a : String) (h : l.Nodup) :
    l.filter (fun q => !(q == a)) = l.erase a := by
  induction l with
  | nil => rfl
  | cons b t ih =>
    rcases List.nodup_cons.mp h with ⟨hb, ht⟩
    rw [List.filter_cons]
    by_cases hba : b = a
    · subst hba
      have hbb : (!(b == b)) = false := by simp
      rw [hbb, List.erase_cons_head]
      simp only [Bool.false_eq_true, if_false]
      apply List.filter_eq_self.mpr
      intro q hq
      have hqb : q ≠ b := fun e => hb (e ▸ hq)
      simp [hqb]
    · have hcond : (!(b == a)) = true := by simp [hba]
      rw [hcond, if_pos rfl, List.erase_cons_tail (by simp [hba]), ih ht]

theorem erase_filter_singleton (l : List String) (a : String) (h : l.Nodup) :
    l.filter (fun q => !(([a] : List String).contains q)) = l.erase a := by
  rw [List.filter_congr (fun q _ => by
    by_cases hqa : q = a <;> simp [hqa] : ∀ q ∈ l,
    (!(([a] : List String).contains q)) = (!(q == a)))]
  exact filter_ne_of_nodup l a h

theorem not_mem_erase_self (l : List String) (a : String) (h : l.Nodup) :
    ¬ a ∈ l.erase a := by
  rw [← filter_ne_of_nodup l a h]
  intro hmem
  have := List.of_mem_filter hmem
  simp at this

/-- C4: unlocking one handle of a shared root token removes that handle's
bookkeeping entry and one occurrence of the caller's principal; with N
distinct principals the root token ends exactly when the last principal's
occurrence is removed — unlocking one of several participants leaves the
token active and registered with the remaining participants intact, while
removing the last one ends the root (and the resource reads unlocked). -/
theorem shared_unlock_principal_lifecycle (st : State) (ctx : Resource)
    (locktoken : Nat) (p : String) (r : Nat)
    (wd : WebdavAnnots) (plist : List String)
    (hget : TokenUtility.get st ctx.key = some (.rootRef r))
    (hr : r < st.roots.length)
    (hkind : (getRoot st r).kind = TokenKind.shared)
    (hwd : (getRoot st r).annotations.webdav = some wd)
    (hpl : wd.principal_ids = some plist)
    (hnodup : plist.Nodup)
    (hmem : p ∈ plist)
    (hprin : (getRoot st r).principal_ids = plist)
    (hidx : (getRoot st r).annotations.indirectIndex = none)
    (hhandle : (wd.handles.find? (fun q => q.1 == locktoken)).isSome = true) :
    ∃ st', DAVLockmanager.unlock st ctx locktoken p = (st', none) ∧
      (getRoot st' r).annotations.webdav = some
        ⟨some (plist.erase p), wd.handles.filter (fun q => q.1 != locktoken)⟩ ∧
      (getRoot st' r).principal_ids = plist.erase p ∧
      (plist.erase p ≠ [] →
        (getRoot st' r).ended = none ∧
        TokenUtility.get st' ctx.key = some (.rootRef r)) ∧
      (plist.erase p = [] →
        (getRoot st' r).ended = some st.now ∧
        TokenUtility.get st' ctx.key = none) := by
  obtain ⟨hlg, -⟩ := get_inv st ctx.key _ hget
  have heff : (getRoot st r).effEnded st.now = none :=
    get_root_effEnded_none st ctx.key r hget
  have hendnone : (getRoot st r).ended = none := effEnded_none_ended _ _ heff
  have hperase : ¬ p ∈ plist.erase p := not_mem_erase_self plist p hnodup
  obtain ⟨st1, hst1⟩ : ∃ s, setWebdav st r ⟨some (plist.erase p),
      wd.handles.filter (fun q => q.1 != locktoken)⟩ = s := ⟨_, rfl⟩
  have hlen1 : st1.roots.length = st.roots.length := by
    rw [← hst1]; simp [setWebdav, setRoot]
  have hr1 : r < st1.roots.length := by rw [hlen1]; exact hr
  have hg1 : getRoot st1 r = { getRoot st r with annotations :=
      ⟨(getRoot st r).annotations.indirectIndex,
       some ⟨some (plist.erase p),
         wd.handles.filter (fun q => q.1 != locktoken)⟩⟩ } := by
    rw [← hst1, setWebdav, getRoot_setRoot_self st r _ hr]
  have hnow1 : st1.now = st.now := by rw [← hst1, setWebdav]; exact rfl
  have hlocks1 : locksGet st1 ctx.key = locksGet st ctx.key := by
    rw [← hst1, setWebdav]; exact rfl
  have heff1 : (getRoot st1 r).effEnded st1.now = none := by
    rw [hg1, hnow1]; exact heff
  have hprin1 : (getRoot st1 r).principal_ids = plist := by
    rw [hg1]; exact hprin
  have hremaining : (getRoot st1 r).principal_ids.filter
      (fun q => !(([p] : List String).contains q)) = plist.erase p := by
    rw [hprin1]; exact erase_filter_singleton plist p hnodup
  obtain ⟨st2, hst2⟩ : ∃ s, setRoot st1 r { getRoot st1 r with
      principal_ids := plist.erase p } = s := ⟨_, rfl⟩
  have hlen2 : st2.roots.length = st.roots.length := by
    rw [← hst2]; simp [setRoot, hlen1]
  have hr2 : r < st2.roots.length := by rw [hlen2]; exact hr
  have hg2 : getRoot st2 r = { getRoot st1 r with
      principal_ids := plist.erase p } := by
    rw [← hst2]; exact getRoot_setRoot_self st1 r _ hr1
  have hnow2 : st2.now = st.now := by rw [← hst2]; exact hnow1
  have hlocks2 : locksGet st2 ctx.key = locksGet st ctx.key := by
    rw [← hst2]; exact hlocks1
  have heff1x : (getRoot st1 r).effEnded st.now = none := by
    rw [← hnow1]; exact heff1
  have heff2 : (getRoot st2 r).effEnded st2.now = none := by
    rw [hg2, hnow2]; exact heff1x
  by_cases hcase : plist.erase p = []
  · -- last principal removed: the root token ends
    obtain ⟨st3, hst3⟩ : ∃ s, setRoot st2 r { getRoot st2 r with
        ended := some st2.now } = s := ⟨_, rfl⟩
    have hlen3 : st3.roots.length = st.roots.length := by
      rw [← hst3]; simp [setRoot, hlen2]
    have hr3 : r < st3.roots.length := by rw [hlen3]; exact hr
    have hg3 : getRoot st3 r = { getRoot st2 r with ended := some st2.now } := by
      rw [← hst3]; exact getRoot_setRoot_self st2 r _ hr2
    have hlocks3 : locksGet st3 ctx.key = locksGet st ctx.key := by
      rw [← hst3]; exact hlocks2
    have hidx3 : (getRoot st3 r).annotations.indirectIndex = none := by
      rw [hg3, hg2, hg1]; exact hidx
    have hcascade : removeEndedTokens st3 r = .ok st3 := by
      unfold removeEndedTokens
      rw [hidx3]
      rfl
    have hend : endToken st2 r = .ok st3 := by
      unfold endToken
      simp only [heff2, hst3, hcascade]
    have hrem : SharedLock.remove st1 r [p] = .ok st3 := by
      simp only [SharedLock.remove, heff1, hremaining, hst2]
      rw [hcase]
      simp only [List.isEmpty_nil, if_true]
      exact hend
    refine ⟨st3, ?_, ?_, ?_, ?_, ?_⟩
    · unfold DAVLockmanager.unlock
      simp only [hget, hkind, hwd, hhandle, if_true, hpl, if_pos hmem,
        if_neg hperase, hst1, hrem]
    · rw [hg3, hg2, hg1]
    · rw [hg3, hg2]
    · intro hne; exact absurd hcase hne
    · intro _
      constructor
      · rw [hg3, hnow2]
      · have heffS : (getRoot st3 r).effEnded st3.now = some st2.now := by
          rw [hg3]
          rfl
        have hlg3 : locksGet st3 ctx.key = some (.rootRef r) := by
          rw [hlocks3]; exact hlg
        simp [TokenUtility.get, hlg3, refEnded, resolveRootId_rootRef, heffS]
  · -- other participants remain: the root token stays active
    have hrem : SharedLock.remove st1 r [p] = .ok st2 := by
      simp only [SharedLock.remove, heff1, hremaining, hst2]
      have hie : (plist.erase p).isEmpty = false := by
        cases hpe : plist.erase p with
        | nil => exact absurd hpe hcase
        | cons a t => rfl
      rw [hie]
      simp only [Bool.false_eq_true, if_false]
    refine ⟨st2, ?_, ?_, ?_, ?_, ?_⟩
    · unfold DAVLockmanager.unlock
      simp only [hget, hkind, hwd, hhandle, if_true, hpl, if_pos hmem,
        if_neg hperase, hst1, hrem]
    · rw [hg2, hg1]
    · rw [hg2]
    · intro _
      constructor
      · rw [hg2, hg1]; exact hendnone
      · exact get_root_intro st2 ctx.key r (by rw [hlocks2]; exact hlg) heff2
    · intro h0; exact absurd h0 hcase

theorem shared_unlock_principal_lifecycle_witness :
    ("alice" : String) ∈ (["alice", "bob"] : List String) ∧
    (["alice", "bob"] : List String).Nodup ∧
    ∃ st',
      DAVLockmanager.unlock
        { uid := 0, now := 5,
          roots := [{ context := 20, kind := .shared,
                      principal_ids := ["alice", "bob"],
                      started := 0, duration := none, ended := none,
                      utility := some 0,
                      annotations := ⟨none, some ⟨some ["alice", "bob"],
                        [(1, ⟨"A", "0"⟩), (2, ⟨"B", "0"⟩)]⟩⟩ }],
          indirects := [], locks := [(20, .rootRef 0)] }
        (.item 20) 1 "alice" = (st', none) ∧
      (getRoot st' 0).annotations.webdav = some
        ⟨some ((["alice", "bob"] : List String).erase "alice"),
         ([(1, ⟨"A", "0"⟩), (2, ⟨"B", "0"⟩)] : List (Nat × HandleInfo)).filter
           (fun q => q.1 != 1)⟩ ∧
      (getRoot st' 0).principal_ids =
        (["alice", "bob"] : List String).erase "alice" ∧
      ((["alice", "bob"] : List String).erase "alice" ≠ [] →
        (getRoot st' 0).ended = none ∧
        TokenUtility.get st' (Resource.item 20).key = some (.rootRef 0)) ∧
      ((["alice", "bob"] : List String).erase "alice" = [] →
        (getRoot st' 0).ended = some 5 ∧
        TokenUtility.get st' (Resource.item 20).key = none) :=
  ⟨by decide, by decide,
    shared_unlock_principal_lifecycle _ (.item 20) 1 "alice" 0
      ⟨some ["alice", "bob"], [(1, ⟨"A", "0"⟩), (2, ⟨"B", "0"⟩)]⟩
      ["alice", "bob"] (by decide) (by decide) (by decide) (by decide)
      (by decide) (by decide) (by decide) (by decide) (by decide) (by decide)⟩

/-- Registering a freshly constructed indirect token for an unlocked target
against an active, registered root succeeds: the utility setter stores the
registry back-reference and appends the target to the root's descendant
index, and the registry maps the target to the new indirect token; all
other registry entries, indirect tokens and root tokens are untouched. -/
theorem register_fresh_indirect (st : State) (k ρ : Nat)
    (hρ : ρ < st.roots.length)
    (hutil : (getRoot st ρ).utility = some st.uid)
    (heff : (getRoot st ρ).effEnded st.now = none)
    (hfind : (((getRoot st ρ).annotations.indirectIndex.getD []).find?
      (fun q => q.1 == k)) = none)
    (hlk : locksGet st k = none) :
    ∃ st', TokenUtility.register (addIndirect st k (.rootRef ρ))
        (.indRef st.indirects.length) = .ok st' ∧
      locksGet st' k = some (.indRef st.indirects.length) ∧
      (∀ k', k' ≠ k → locksGet st' k' = locksGet st k') ∧
      getInd st' st.indirects.length = ⟨k, .rootRef ρ, some st.uid⟩ ∧
      (∀ j, j < st.indirects.length → getInd st' j = getInd st j) ∧
      getRoot st' ρ = { getRoot st ρ with annotations :=
        ⟨some (((getRoot st ρ).annotations.indirectIndex.getD []) ++
          [(k, st.indirects.length)]), (getRoot st ρ).annotations.webdav⟩ } ∧
      (∀ ρ', ρ' ≠ ρ → getRoot st' ρ' = getRoot st ρ') ∧
      st'.now = st.now ∧ st'.uid = st.uid ∧
      st'.roots.length = st.roots.length ∧
      st'.indirects.length = st.indirects.length + 1 := by
  have htid : getInd (addIndirect st k (.rootRef ρ)) st.indirects.length =
      ⟨k, .rootRef ρ, none⟩ := getInd_addIndirect_last st k _
  have huid : (addIndirect st k (.rootRef ρ)).uid = st.uid := rfl
  -- the state built by the utility setter
  obtain ⟨stA, hstA⟩ : ∃ s, setInd (setRoot (addIndirect st k (.rootRef ρ)) ρ
      { getRoot st ρ with annotations :=
        ⟨some (((getRoot st ρ).annotations.indirectIndex.getD []) ++
          [(k, st.indirects.length)]), (getRoot st ρ).annotations.webdav⟩ })
      st.indirects.length ⟨k, .rootRef ρ, some st.uid⟩ = s := ⟨_, rfl⟩
  have hlenRootsA : stA.roots.length = st.roots.length := by
    rw [← hstA]; simp [setInd, setRoot, addIndirect]
  have hlenIndsA : stA.indirects.length = st.indirects.length + 1 := by
    rw [← hstA]; simp [setInd, setRoot, addIndirect]
  have hρA : ρ < (addIndirect st k (.rootRef ρ)).roots.length := by
    simpa [addIndirect] using hρ
  have htidA : st.indirects.length <
      (setRoot (addIndirect st k (.rootRef ρ)) ρ
        { getRoot st ρ with annotations :=
          ⟨some (((getRoot st ρ).annotations.indirectIndex.getD []) ++
            [(k, st.indirects.length)]), (getRoot st ρ).annotations.webdav⟩ }).indirects.length := by
    simp [setRoot, addIndirect]
  have hgIndA : getInd stA st.indirects.length = ⟨k, .rootRef ρ, some st.uid⟩ := by
    rw [← hstA]
    exact getInd_setInd_self _ _ _ htidA
  have hgRootA : getRoot stA ρ = { getRoot st ρ with annotations :=
      ⟨some (((getRoot st ρ).annotations.indirectIndex.getD []) ++
        [(k, st.indirects.length)]), (getRoot st ρ).annotations.webdav⟩ } := by
    rw [← hstA, getRoot_setInd]
    rw [getRoot_setRoot_self _ ρ _ hρA]
  have hnowA : stA.now = st.now := by rw [← hstA]; exact rfl
  have hlocksA : ∀ k', locksGet stA k' = locksGet st k' := by
    intro k'; rw [← hstA]; exact rfl
  -- the utility setter evaluation
  have hsetu : IndirectToken.setUtility (addIndirect st k (.rootRef ρ))
      st.indirects.length st.uid = .ok stA := by
    rw [← hstA]
    unfold IndirectToken.setUtility
    simp only [htid]
    have h1 : refUtility (addIndirect st k (.rootRef ρ)) (.rootRef ρ) = some st.uid := by
      simp [refUtility, getRoot_addIndirect, hutil]
    have h2 : ¬ (refUtility (addIndirect st k (.rootRef ρ)) (.rootRef ρ) ≠ some st.uid) := by
      simp [h1]
    rw [if_neg h2]
    rw [resolveRootId_rootRef]
    simp only [getRoot_addIndirect]
    rw [hfind]
    simp only [Option.isSome_none, Bool.false_eq_true, if_false]
  -- register evaluation
  have hreg : TokenUtility.register (addIndirect st k (.rootRef ρ))
      (.indRef st.indirects.length) = .ok (locksSet stA k (.indRef st.indirects.length)) := by
    unfold TokenUtility.register
    have hru : refUtility (addIndirect st k (.rootRef ρ))
        (.indRef st.indirects.length) = none := by
      simp [refUtility, htid]
    simp only [hru, huid, hsetu]
    have hctx : refContext stA (.indRef st.indirects.length) = k := by
      simp [refContext, hgIndA]
    simp only [hctx]
    have hlkA : locksGet stA k = none := by rw [hlocksA]; exact hlk
    simp only [hlkA]
    have hres : resolveRootId stA (.indRef st.indirects.length) = some ρ :=
      resolveRootId_indRef stA st.indirects.length ρ
        (by rw [hlenIndsA]; omega) (by rw [hgIndA])
    have heffA : (getRoot stA ρ).effEnded stA.now = none := by
      rw [hgRootA, hnowA]
      exact heff
    have hre : refEnded stA (.indRef st.indirects.length) = some none := by
      simp [refEnded, hres, heffA]
    simp only [hre]
  refine ⟨locksSet stA k (.indRef st.indirects.length), hreg, ?_, ?_, ?_, ?_, ?_, ?_, ?_, ?_, ?_, ?_⟩
  · exact locksGet_locksSet_self stA k _
  · intro k' hk'
    rw [locksGet_locksSet_ne stA k k' _ hk']
    exact hlocksA k'
  · exact hgIndA
  · intro j hj
    rw [getInd_locksSet, ← hstA]
    have hj2 : j ≠ st.indirects.length := by omega
    rw [getInd_setInd_ne _ _ _ _ hj2]
    rw [getInd_setRoot]
    exact getInd_addIndirect_lt st k _ j hj
  · exact hgRootA
  · intro ρ' hρ'
    rw [getRoot_locksSet, ← hstA, getRoot_setInd, getRoot_setRoot_ne _ ρ ρ' _ hρ',
      getRoot_addIndirect]
  · exact hnowA
  · rw [← hstA]; exact rfl
  · exact hlenRootsA
  · exact hlenIndsA

/-- C6: when a resource-added notification fires for a new resource under
a parent holding an active token, on a non-browser HTTP request whose IF
header matches the parent and with the new resource itself unlocked, the
handler creates and registers an indirect token for the new resource whose
`roottoken` is the parent token resolved through indirection — a root
token reference, never an indirect token. -/
theorem moved_event_indirect_locks_against_root (st : State) (ev : MovedEvent)
    (rq : DavRequest) (np ρ : Nat) (ptok : TokenRef)
    (hhttp : rq.isHTTP = true)
    (hmethod : BROWSER_METHODS.contains rq.method = false)
    (hobj : locksGet st ev.object = none)
    (hnp : ev.newParent = some np)
    (hptok : TokenUtility.get st np = some ptok)
    (hmatch : rq.matchesIfHeader np = true)
    (hresolve : ptok = .rootRef ρ ∨
      ∃ j, ptok = .indRef j ∧ (getInd st j).roottoken = .rootRef ρ)
    (hρ : ρ < st.roots.length)
    (hutil : (getRoot st ρ).utility = some st.uid)
    (heffρ : (getRoot st ρ).effEnded st.now = none)
    (hfind : (((getRoot st ρ).annotations.indirectIndex.getD []).find?
      (fun q => q.1 == ev.object)) = none) :
    ∃ st', indirectlyLockObjectOnMovedEvent st ev (some rq) = (st', none) ∧
      getInd st' st.indirects.length = ⟨ev.object, .rootRef ρ, some st.uid⟩ ∧
      locksGet st' ev.object = some (.indRef st.indirects.length) := by
  have hobjget : TokenUtility.get st ev.object = none := by
    simp [TokenUtility.get, hobj]
  obtain ⟨st', hreg, hlk', hlkO, hgi, hgiO, hgr, hgrO, hnow', huid', hlr, hli⟩ :=
    register_fresh_indirect st ev.object ρ hρ hutil heffρ hfind hobj
  refine ⟨st', ?_, hgi, hlk'⟩
  unfold indirectlyLockObjectOnMovedEvent
  rcases hresolve with hcase | ⟨j, hcase, hcase2⟩
  · subst hcase
    simp only [hhttp, hmethod, hobjget, hnp, hptok, hmatch, Bool.not_false,
      Bool.and_true, Bool.true_and, Option.isSome_none, Bool.false_and,
      Bool.false_eq_true, if_false, Bool.not_true, if_true, hreg]
  · subst hcase
    simp only [hhttp, hmethod, hobjget, hnp, hptok, hmatch, Bool.not_false,
      Bool.and_true, Bool.true_and, Option.isSome_none, Bool.false_and,
      Bool.false_eq_true, if_false, Bool.not_true, if_true, hcase2, hreg]

theorem moved_event_indirect_locks_against_root_witness :
    locksGet
      { uid := 7, now := 0,
        roots := [{ context := 10, kind := .exclusive, principal_ids := ["m"],
                    started := 0, duration := none, ended := none,
                    utility := some 7, annotations := ⟨none, none⟩ }],
        indirects := [], locks := [(10, .rootRef 0)] } 11 = none ∧
    ∃ st',
      indirectlyLockObjectOnMovedEvent
        { uid := 7, now := 0,
          roots := [{ context := 10, kind := .exclusive, principal_ids := ["m"],
                      started := 0, duration := none, ended := none,
                      utility := some 7, annotations := ⟨none, none⟩ }],
          indirects := [], locks := [(10, .rootRef 0)] }
        ⟨11, none, some 10⟩ (some ⟨true, "PUT", fun _ => true⟩) = (st', none) ∧
      getInd st' 0 = ⟨11, .rootRef 0, some 7⟩ ∧
      locksGet st' 11 = some (.indRef 0) :=
  ⟨by decide,
    moved_event_indirect_locks_against_root _ ⟨11, none, some 10⟩
      ⟨true, "PUT", fun _ => true⟩ 10 0 (.rootRef 0) rfl (by decide) (by decide)
      rfl (by decide) rfl (Or.inl rfl) (by decide) (by decide) (by decide)
      (by decide)⟩

/-- Re-registering an ended indirect token through the registry evicts its
entry: the utility back-reference is left alone, the current (identical)
entry is found ended and deleted, and no new entry is inserted. -/
theorem register_ended_indirect (st : State) (t r : Nat)
    (ht : t < st.indirects.length)
    (hroot : (getInd st t).roottoken = .rootRef r)
    (hutil : (getInd st t).utility = some st.uid)
    (hended : (getRoot st r).ended.isSome = true)
    (hlk : locksGet st (getInd st t).context = some (.indRef t)) :
    TokenUtility.register st (.indRef t) =
      .ok (locksDel st (getInd st t).context) := by
  obtain ⟨e, he⟩ := Option.isSome_iff_exists.mp hended
  have heff : (getRoot st r).effEnded st.now = some e := by
    unfold RootTok.effEnded
    rw [he]
  have hres : resolveRootId st (.indRef t) = some r := resolveRootId_indRef st t r ht hroot
  have hre : refEnded st (.indRef t) = some (some e) := by
    simp [refEnded, hres, heff]
  have hgi2 : getInd (locksDel st (getInd st t).context) t = getInd st t := rfl
  have ht2 : t < (locksDel st (getInd st t).context).indirects.length := ht
  have hres2 : resolveRootId (locksDel st (getInd st t).context) (.indRef t) = some r :=
    resolveRootId_indRef _ t r ht2 (by rw [hgi2]; exact hroot)
  have heff2 : (getRoot (locksDel st (getInd st t).context) r).effEnded
      (locksDel st (getInd st t).context).now = some e := heff
  have hre2 : refEnded (locksDel st (getInd st t).context) (.indRef t) =
      some (some e) := by
    simp [refEnded, hres2, heff2]
  unfold TokenUtility.register
  have hru : refUtility st (.indRef t) = some st.uid := hutil
  simp only [hru]
  simp only [if_true]
  simp only [refContext, hlk, hre, hre2]

/-- Deleting a key that is present in the root's descendant index filters
that entry out of the index annotation. -/
theorem delIndexEntry_present (st : State) (r key : Nat) (idx : List (Nat × Nat))
    (hidx : (getRoot st r).annotations.indirectIndex = some idx)
    (hfind : (idx.find? (fun q => q.1 == key)).isSome = true) :
    delIndexEntry st r key = .ok (setRoot st r { getRoot st r with annotations :=
      ⟨some (idx.filter (fun q => q.1 != key)),
       (getRoot st r).annotations.webdav⟩ }) := by
  unfold delIndexEntry
  simp only [hidx, Option.getD_some, hfind, if_true]

/-- The cascade loop of `removeEndedTokens`, run over a snapshot of the
(ended) root's descendant index: every snapshotted token is evicted from
the registry and its index entry removed, and registry entries under other
keys are untouched. -/
theorem cascadeLoop_clears (r : Nat) (items : List (Nat × Nat)) :
    ∀ (st : State) (idx0 : List (Nat × Nat)),
    r < st.roots.length →
    (getRoot st r).ended.isSome = true →
    (getRoot st r).annotations.indirectIndex = some idx0 →
    (items.map Prod.fst).Nodup →
    (∀ kt ∈ items, kt.2 < st.indirects.length ∧
      (getInd st kt.2).roottoken = .rootRef r ∧
      (getInd st kt.2).context = kt.1 ∧
      (getInd st kt.2).utility = some st.uid ∧
      locksGet st kt.1 = some (.indRef kt.2) ∧
      (idx0.find? (fun q => q.1 == kt.1)).isSome = true) →
    ∃ st', cascadeLoop st r items = .ok st' ∧
      (getRoot st' r).annotations.indirectIndex =
        some (idx0.filter (fun q => !((items.map Prod.fst).contains q.1))) ∧
      (∀ kt ∈ items, locksGet st' kt.1 = none) ∧
      (∀ k', k' ∉ items.map Prod.fst → locksGet st' k' = locksGet st k') := by
  induction items with
  | nil =>
    intro st idx0 hr hended hidx hnodup hitems
    refine ⟨st, rfl, ?_, ?_, ?_⟩
    · rw [hidx]
      simp
    · intro kt hkt; cases hkt
    · intro k' _; rfl
  | cons head rest ih =>
    intro st idx0 hr hended hidx hnodup hitems
    obtain ⟨k, t⟩ := head
    obtain ⟨ht, hroott, hctx, hutilt, hlkt, hfindt⟩ :=
      hitems (k, t) (List.mem_cons_self _ _)
    have hnodup0 : (k :: rest.map Prod.fst).Nodup := by
      rw [List.map_cons] at hnodup; exact hnodup
    obtain ⟨hknotin, hnodup'⟩ := List.nodup_cons.mp hnodup0
    -- the registry eviction
    have hreg : TokenUtility.register st (.indRef t) = .ok (locksDel st k) := by
      have := register_ended_indirect st t r ht hroott hutilt hended
        (by rw [hctx]; exact hlkt)
      rw [hctx] at this
      exact this
    -- the index entry deletion
    have hgr1 : getRoot (locksDel st k) r = getRoot st r := rfl
    have hdel : delIndexEntry (locksDel st k) r k =
        .ok (setRoot (locksDel st k) r { getRoot st r with annotations :=
          ⟨some (idx0.filter (fun q => q.1 != k)),
           (getRoot st r).annotations.webdav⟩ }) := by
      have := delIndexEntry_present (locksDel st k) r k idx0
        (by rw [hgr1]; exact hidx) hfindt
      rw [hgr1] at this
      exact this
    obtain ⟨st2, hst2⟩ : ∃ s, setRoot (locksDel st k) r
        { getRoot st r with annotations :=
          ⟨some (idx0.filter (fun q => q.1 != k)),
           (getRoot st r).annotations.webdav⟩ } = s := ⟨_, rfl⟩
    rw [hst2] at hdel
    have hr2 : r < st2.roots.length := by
      rw [← hst2]; simpa [setRoot, locksDel] using hr
    have hgr2 : getRoot st2 r = { getRoot st r with annotations :=
        ⟨some (idx0.filter (fun q => q.1 != k)),
         (getRoot st r).annotations.webdav⟩ } := by
      rw [← hst2]
      exact getRoot_setRoot_self _ r _ (by simpa [locksDel] using hr)
    have hended2 : (getRoot st2 r).ended.isSome = true := by
      rw [hgr2]; exact hended
    have hidx2 : (getRoot st2 r).annotations.indirectIndex =
        some (idx0.filter (fun q => q.1 != k)) := by
      rw [hgr2]
    have hginds2 : ∀ j, getInd st2 j = getInd st j := by
      intro j; rw [← hst2, getInd_setRoot]; exact rfl
    have huid2 : st2.uid = st.uid := by rw [← hst2]; exact rfl
    have hlendind2 : st2.indirects.length = st.indirects.length := by
      rw [← hst2]; simp [setRoot, locksDel]
    have hlocks2 : ∀ k', k' ≠ k → locksGet st2 k' = locksGet st k' := by
      intro k' hk'
      rw [← hst2, locksGet_setRoot]
      exact locksGet_locksDel_ne st k k' hk'
    have hlocks2k : locksGet st2 k = none := by
      rw [← hst2, locksGet_setRoot]
      exact locksGet_locksDel_self st k
    have hitems2 : ∀ kt ∈ rest, kt.2 < st2.indirects.length ∧
        (getInd st2 kt.2).roottoken = .rootRef r ∧
        (getInd st2 kt.2).context = kt.1 ∧
        (getInd st2 kt.2).utility = some st2.uid ∧
        locksGet st2 kt.1 = some (.indRef kt.2) ∧
        ((idx0.filter (fun q => q.1 != k)).find?
          (fun q => q.1 == kt.1)).isSome = true := by
      intro kt hkt
      obtain ⟨h1, h2, h3, h4, h5, h6⟩ := hitems kt (List.mem_cons_of_mem _ hkt)
      have hktne : kt.1 ≠ k := by
        intro he
        exact hknotin (he ▸ List.mem_map_of_mem Prod.fst hkt)
      refine ⟨by rw [hlendind2]; exact h1, by rw [hginds2]; exact h2,
        by rw [hginds2]; exact h3, by rw [hginds2, huid2]; exact h4,
        by rw [hlocks2 kt.1 hktne]; exact h5, ?_⟩
      rw [find?_filter_sub]
      · exact h6
      · intro a ha
        have : a.1 = kt.1 := by simpa using ha
        simp [bne_iff_ne, this, hktne]
    obtain ⟨st', hloop, hidx', hcleared', hother'⟩ :=
      ih st2 (idx0.filter (fun q => q.1 != k)) hr2 hended2 hidx2 hnodup' hitems2
    refine ⟨st', ?_, ?_, ?_, ?_⟩
    · simp only [cascadeLoop, hreg, hdel]
      exact hloop
    · rw [hidx', List.filter_filter]
      congr 1
      apply List.filter_congr
      intro a _
      simp only [List.map_cons, List.contains_cons, Bool.not_or, bne]
      exact Bool.and_comm _ _
    · intro kt hkt
      rcases List.mem_cons.mp hkt with he | hm
      · subst he
        have hknotin' : (k, t).1 ∉ rest.map Prod.fst := hknotin
        rw [hother' _ hknotin']
        exact hlocks2k
      · exact hcleared' kt hm
    · intro k' hk'
      have hk1 : k' ≠ k := by
        intro he
        exact hk' (by rw [List.map_cons, he]; exact List.mem_cons_self _ _)
      have hk2 : k' ∉ rest.map Prod.fst := by
        intro hm
        exact hk' (by rw [List.map_cons]; exact List.mem_cons_of_mem _ hm)
      rw [hother' k' hk2]
      exact hlocks2 k' hk1

/-- C1: for a root token that has ended and whose INDIRECT_INDEX_KEY
annotation holds the set of its indirect tokens, running the end-event
subscriber `removeEndedTokens` re-registers every indirect token in the
snapshot — thereby evicting it — and removes its index entry, so that
afterwards the index is empty and no member of the set remains active in
the registry (both the raw registry entry and the live lookup are gone).
The subscriber iterates over the snapshot taken before the loop while the
live index shrinks underneath, as in the source. -/
theorem removeEndedTokens_cascade_completeness (st : State) (r : Nat)
    (idx : List (Nat × Nat))
    (hr : r < st.roots.length)
    (hended : (getRoot st r).ended.isSome = true)
    (hidx : (getRoot st r).annotations.indirectIndex = some idx)
    (hnodup : (idx.map Prod.fst).Nodup)
    (hitems : ∀ kt ∈ idx, kt.2 < st.indirects.length ∧
      (getInd st kt.2).roottoken = .rootRef r ∧
      (getInd st kt.2).context = kt.1 ∧
      (getInd st kt.2).utility = some st.uid ∧
      locksGet st kt.1 = some (.indRef kt.2)) :
    ∃ st', removeEndedTokens st r = .ok st' ∧
      (getRoot st' r).annotations.indirectIndex = some [] ∧
      (∀ kt ∈ idx, locksGet st' kt.1 = none ∧
        TokenUtility.get st' kt.1 = none) := by
  have hitems' : ∀ kt ∈ idx, kt.2 < st.indirects.length ∧
      (getInd st kt.2).roottoken = .rootRef r ∧
      (getInd st kt.2).context = kt.1 ∧
      (getInd st kt.2).utility = some st.uid ∧
      locksGet st kt.1 = some (.indRef kt.2) ∧
      (idx.find? (fun q => q.1 == kt.1)).isSome = true := by
    intro kt hkt
    obtain ⟨h1, h2, h3, h4, h5⟩ := hitems kt hkt
    refine ⟨h1, h2, h3, h4, h5, ?_⟩
    apply List.find?_isSome.mpr
    exact ⟨kt, hkt, by simp⟩
  obtain ⟨st', hloop, hidx', hcleared, hother⟩ :=
    cascadeLoop_clears r idx st idx hr hended hidx hnodup hitems'
  refine ⟨st', ?_, ?_, ?_⟩
  · unfold removeEndedTokens
    rw [hidx]
    simpa using hloop
  · rw [hidx']
    congr 1
    apply List.filter_eq_nil_iff.mpr
    intro a ha
    have hmem : a.1 ∈ idx.map Prod.fst := List.mem_map_of_mem Prod.fst ha
    have hcont : (idx.map Prod.fst).contains a.1 = true :=
      List.elem_eq_true_of_mem hmem
    simp [hcont]
    exact ⟨a.2, ha⟩
  · intro kt hkt
    refine ⟨hcleared kt hkt, ?_⟩
    simp [TokenUtility.get, hcleared kt hkt]

theorem removeEndedTokens_cascade_completeness_witness :
    (getRoot
      { uid := 7, now := 100,
        roots := [{ context := 10, kind := .exclusive, principal_ids := ["michael"],
                    started := 50, duration := none, ended := some 90,
                    utility := some 7,
                    annotations := ⟨some [(11, 0), (12, 1)], none⟩ }],
        indirects := [⟨11, .rootRef 0, some 7⟩, ⟨12, .rootRef 0, some 7⟩],
        locks := [(10, .rootRef 0), (11, .indRef 0), (12, .indRef 1)] } 0).ended.isSome = true ∧
    ∃ st',
      removeEndedTokens
        { uid := 7, now := 100,
          roots := [{ context := 10, kind := .exclusive, principal_ids := ["michael"],
                      started := 50, duration := none, ended := some 90,
                      utility := some 7,
                      annotations := ⟨some [(11, 0), (12, 1)], none⟩ }],
          indirects := [⟨11, .rootRef 0, some 7⟩, ⟨12, .rootRef 0, some 7⟩],
          locks := [(10, .rootRef 0), (11, .indRef 0), (12, .indRef 1)] } 0 = .ok st' ∧
      (getRoot st' 0).annotations.indirectIndex = some [] ∧
      (∀ kt ∈ ([(11, 0), (12, 1)] : List (Nat × Nat)),
        locksGet st' kt.1 = none ∧ TokenUtility.get st' kt.1 = none) :=
  ⟨by decide,
    removeEndedTokens_cascade_completeness _ 0 [(11, 0), (12, 1)]
      (by decide) (by decide) (by decide) (by decide) (by decide)⟩

/-- Searching an appended list when the first part has no match searches
the second part. -/
theorem find?_append_none {α : Type _} (l1 l2 : List α) (p : α → Bool)
    (h1 : l1.find? p = none) : (l1 ++ l2).find? p = l2.find? p := by
  induction l1 with
  | nil => rfl
  | cons a t ih =>
    rw [List.find?_cons] at h1
    cases hpa : p a with
    | true =>
      simp only [hpa] at h1
      exact Option.noConfusion h1
    | false =>
      simp only [hpa] at h1
      rw [List.cons_append, List.find?_cons]
      simp only [hpa]
      exact ih h1

/-- Registering a freshly constructed, active root token for an unlocked
resource succeeds: the utility back-reference is set and the registry maps
the token's context to it. -/
theorem register_fresh_root (st : State) (root : RootTok)
    (hutil : root.utility = none)
    (hended : root.ended = none)
    (hexp : ∀ d, root.duration = some d → st.now < root.started + d)
    (hlk : locksGet st root.context = none) :
    TokenUtility.register { st with roots := st.roots ++ [root] }
        (.rootRef st.roots.length) =
      .ok (locksSet (setRoot { st with roots := st.roots ++ [root] }
        st.roots.length { root with utility := some st.uid })
        root.context (.rootRef st.roots.length)) := by
  have hg0 : getRoot { st with roots := st.roots ++ [root] } st.roots.length = root := by
    simp only [getRoot]
    exact getD_append_length st.roots root dummyRoot
  have hrid : st.roots.length < ({ st with roots := st.roots ++ [root] } : State).roots.length := by
    simp
  have hg1 : getRoot (setRoot { st with roots := st.roots ++ [root] }
      st.roots.length { root with utility := some st.uid }) st.roots.length =
      { root with utility := some st.uid } := by
    rw [getRoot_setRoot_self _ _ _ hrid]
  have heff1 : ({ root with utility := some st.uid } : RootTok).effEnded st.now = none := by
    unfold RootTok.effEnded RootTok.expiration
    simp only [hended]
    cases hd : root.duration with
    | none => rfl
    | some d =>
      have := hexp d hd
      simp [Nat.not_le.mpr this]
  unfold TokenUtility.register
  have hru : refUtility { st with roots := st.roots ++ [root] }
      (.rootRef st.roots.length) = none := by
    simp [refUtility, hg0, hutil]
  simp only [hru, hg0]
  have hctx : refContext (setRoot { st with roots := st.roots ++ [root] }
      st.roots.length { root with utility := some st.uid })
      (.rootRef st.roots.length) = root.context := by
    simp [refContext, hg1]
  simp only [hctx]
  have hlk1 : locksGet (setRoot { st with roots := st.roots ++ [root] }
      st.roots.length { root with utility := some st.uid }) root.context = none := hlk
  simp only [hlk1]
  have hnow1 : (setRoot { st with roots := st.roots ++ [root] }
      st.roots.length { root with utility := some st.uid }).now = st.now := rfl
  have hre1 : refEnded (setRoot { st with roots := st.roots ++ [root] }
      st.roots.length { root with utility := some st.uid })
      (.rootRef st.roots.length) = some none := by
    simp [refEnded, resolveRootId_rootRef, hg1, hnow1, heff1]
  simp only [hre1]

/-- The children walk of `maybeRecursivelyLockIndirectly` over a batch of
unlocked items followed by an already-locked one: every item before the
conflict gets an indirect token created and registered against the root,
the walk stops at the conflicting child with `AlreadyLocked`, and nothing
is rolled back — the earlier registrations, the registry entries of
untouched keys, and the root token all survive. -/
theorem lockChildren_partial (rid bad rB : Nat) (suf : List Resource) :
    ∀ (pre : List Nat) (st : State),
    rid < st.roots.length →
    (getRoot st rid).utility = some st.uid →
    (getRoot st rid).effEnded st.now = none →
    pre.Nodup →
    (∀ k ∈ pre, locksGet st k = none ∧
      (((getRoot st rid).annotations.indirectIndex.getD []).find?
        (fun q => q.1 == k)) = none) →
    bad ∉ pre →
    locksGet st bad = some (.rootRef rB) →
    rB < st.roots.length → rB ≠ rid →
    (getRoot st rB).effEnded st.now = none →
    ∃ st', DAVLockmanager.lockChildren st
        (pre.map Resource.item ++ Resource.item bad :: suf)
        (.rootRef rid) "infinity" = (st', some .alreadyLocked) ∧
      (∀ k', k' ∉ pre → locksGet st' k' = locksGet st k') ∧
      (∀ k ∈ pre, ∃ i, locksGet st' k = some (.indRef i) ∧
        (getInd st' i).roottoken = .rootRef rid) ∧
      (∀ j, j < st.indirects.length → getInd st' j = getInd st j) ∧
      (getRoot st' rid).ended = (getRoot st rid).ended ∧
      (getRoot st' rid).context = (getRoot st rid).context ∧
      (getRoot st' rid).kind = (getRoot st rid).kind ∧
      st'.roots.length = st.roots.length := by
  intro pre
  induction pre with
  | nil =>
    intro st h1 h2 h3 h4 h5 h6 h7 h8 h9 h10
    have hgetbad : TokenUtility.get st bad = some (.rootRef rB) :=
      get_root_intro st bad rB h7 h10
    refine ⟨st, ?_, fun k' _ => rfl, fun k hk => absurd hk (List.not_mem_nil k),
      fun j _ => rfl, rfl, rfl, rfl, rfl⟩
    simp only [List.map_nil, List.nil_append, DAVLockmanager.lockChildren,
      Resource.key, hgetbad]
  | cons k pre' ih =>
    intro st h1 h2 h3 h4 h5 h6 h7 h8 h9 h10
    obtain ⟨hk5a, hk5b⟩ := h5 k (List.mem_cons_self _ _)
    obtain ⟨hknotin', hnodup'⟩ := List.nodup_cons.mp h4
    have hgetk : TokenUtility.get st k = none := by
      simp [TokenUtility.get, hk5a]
    obtain ⟨stR, hreg, hlkk, hlkO, hgi, hgiO, hgr, hgrO, hnowR, huidR, hlr, hli⟩ :=
      register_fresh_indirect st k rid h1 h2 h3 hk5b hk5a
    have ihh1 : rid < stR.roots.length := by rw [hlr]; exact h1
    have ihh2 : (getRoot stR rid).utility = some stR.uid := by
      rw [hgr, huidR]; exact h2
    have ihh3 : (getRoot stR rid).effEnded stR.now = none := by
      rw [hgr, hnowR]; exact h3
    have ihh5 : ∀ k2 ∈ pre', locksGet stR k2 = none ∧
        (((getRoot stR rid).annotations.indirectIndex.getD []).find?
          (fun q => q.1 == k2)) = none := by
      intro k2 hk2
      obtain ⟨ha, hb⟩ := h5 k2 (List.mem_cons_of_mem _ hk2)
      have hne : k2 ≠ k := fun he => hknotin' (he ▸ hk2)
      refine ⟨by rw [hlkO k2 hne]; exact ha, ?_⟩
      rw [hgr]
      show ((((getRoot st rid).annotations.indirectIndex.getD []) ++
        [(k, st.indirects.length)]).find? (fun q => q.1 == k2)) = none
      rw [find?_append_none _ _ _ hb]
      simp [Ne.symm hne]
    have ihh6 : bad ∉ pre' := fun hm => h6 (List.mem_cons_of_mem _ hm)
    have ihh7 : locksGet stR bad = some (.rootRef rB) := by
      have hne : bad ≠ k := fun he => h6 (by rw [he]; exact List.mem_cons_self _ _)
      rw [hlkO bad hne]; exact h7
    have ihh8 : rB < stR.roots.length := by rw [hlr]; exact h8
    have ihh10 : (getRoot stR rB).effEnded stR.now = none := by
      rw [hgrO rB h9, hnowR]; exact h10
    obtain ⟨st', hloop, hpresO, hpreI, hindO, hend', hctx', hkind', hlen'⟩ :=
      ih stR ihh1 ihh2 ihh3 hnodup' ihh5 ihh6 ihh7 ihh8 h9 ihh10
    refine ⟨st', ?_, ?_, ?_, ?_, ?_, ?_, ?_, ?_⟩
    · simp only [List.map_cons, List.cons_append, DAVLockmanager.lockChildren,
        Resource.key, hgetk, hreg, DAVLockmanager.maybeRecursivelyLockIndirectly]
      exact hloop
    · intro k' hk'
      have hne2 : k' ∉ pre' := fun hm => hk' (List.mem_cons_of_mem _ hm)
      have hne1 : k' ≠ k := fun he => hk' (by rw [he]; exact List.mem_cons_self _ _)
      rw [hpresO k' hne2, hlkO k' hne1]
    · intro k2 hk2
      rcases List.mem_cons.mp hk2 with he | hm
      · subst he
        refine ⟨st.indirects.length, ?_, ?_⟩
        · rw [hpresO k2 hknotin']
          exact hlkk
        · have hstep : getInd st' st.indirects.length =
              getInd stR st.indirects.length := by
            apply hindO
            rw [hli]; omega
          rw [hstep, hgi]
      · exact hpreI k2 hm
    · intro j hj
      have hjR : j < stR.indirects.length := by rw [hli]; omega
      rw [hindO j hjR, hgiO j hj]
    · rw [hend', hgr]
    · rw [hctx', hgr]
    · rw [hkind', hgr]
    · rw [hlen', hlr]

/-- C2: an infinite-depth exclusive lock request on a container with a
descendant that already holds an active token raises `AlreadyLocked`, and
the work done before the conflict is not rolled back: the fresh root token
stays registered on the container (still active, exclusive, at the
container's key), every child visited before the conflicting one keeps its
registered indirect token pointing at that root, and the conflicting
descendant's own token is untouched. -/
theorem infinite_depth_lock_partial_failure (st : State) (fk bad rB : Nat)
    (pre : List Nat) (suf : List Resource)
    (ty owner principal_id : String) (duration locktoken : Nat)
    (hfkpre : fk ∉ pre) (hfkbad : fk ≠ bad) (hbadpre : bad ∉ pre)
    (hprenodup : pre.Nodup)
    (hlkfk : locksGet st fk = none)
    (hlkpre : ∀ k ∈ pre, locksGet st k = none)
    (hbadtok : locksGet st bad = some (.rootRef rB))
    (hrB : rB < st.roots.length)
    (heffB : (getRoot st rB).effEnded st.now = none)
    (hdur : 0 < duration) :
    ∃ st', DAVLockmanager.lock st
        (.folder fk (pre.map Resource.item ++ Resource.item bad :: suf))
        "exclusive" ty owner duration "infinity" principal_id locktoken =
      (st', .error .alreadyLocked) ∧
      locksGet st' fk = some (.rootRef st.roots.length) ∧
      (getRoot st' st.roots.length).context = fk ∧
      (getRoot st' st.roots.length).kind = TokenKind.exclusive ∧
      (getRoot st' st.roots.length).ended = none ∧
      (∀ k ∈ pre, ∃ i, locksGet st' k = some (.indRef i) ∧
        (getInd st' i).roottoken = .rootRef st.roots.length) ∧
      locksGet st' bad = some (.rootRef rB) := by
  have hreg := register_fresh_root st
    ⟨fk, .exclusive, [principal_id], st.now, some duration, none, none, ⟨none, none⟩⟩
    rfl rfl
    (by intro d hd
        have hdd : d = duration := by simpa using hd.symm
        show st.now < st.now + d
        omega)
    hlkfk
  have hreg2 : TokenUtility.register
      { st with roots := st.roots ++
        [⟨fk, .exclusive, [principal_id], st.now, some duration, none, none, ⟨none, none⟩⟩] }
      (.rootRef st.roots.length) =
    .ok (locksSet (setRoot
      { st with roots := st.roots ++
        [⟨fk, .exclusive, [principal_id], st.now, some duration, none, none, ⟨none, none⟩⟩] }
      st.roots.length
      ⟨fk, .exclusive, [principal_id], st.now, some duration, none, some st.uid, ⟨none, none⟩⟩)
      fk (.rootRef st.roots.length)) := hreg
  obtain ⟨stReg, hstReg⟩ : ∃ s, locksSet (setRoot
      { st with roots := st.roots ++
        [⟨fk, .exclusive, [principal_id], st.now, some duration, none, none, ⟨none, none⟩⟩] }
      st.roots.length
      ⟨fk, .exclusive, [principal_id], st.now, some duration, none, some st.uid, ⟨none, none⟩⟩)
      fk (.rootRef st.roots.length) = s := ⟨_, rfl⟩
  rw [hstReg] at hreg2
  have hwrap : DAVLockmanager.register
      { st with roots := st.roots ++
        [⟨fk, .exclusive, [principal_id], st.now, some duration, none, none, ⟨none, none⟩⟩] }
      (.rootRef st.roots.length) = .ok stReg := by
    unfold DAVLockmanager.register
    rw [hreg2]
  -- facts about the registered state
  have hrid0 : st.roots.length < ({ st with roots := st.roots ++
      [⟨fk, .exclusive, [principal_id], st.now, some duration, none, none, ⟨none, none⟩⟩] } : State).roots.length := by
    simp
  have hgReg : getRoot stReg st.roots.length =
      ⟨fk, .exclusive, [principal_id], st.now, some duration, none, some st.uid, ⟨none, none⟩⟩ := by
    rw [← hstReg, getRoot_locksSet, getRoot_setRoot_self _ _ _ hrid0]
  have hlkRegfk : locksGet stReg fk = some (.rootRef st.roots.length) := by
    rw [← hstReg]
    exact locksGet_locksSet_self _ _ _
  have hlkRegO : ∀ k', k' ≠ fk → locksGet stReg k' = locksGet st k' := by
    intro k' hk'
    rw [← hstReg, locksGet_locksSet_ne _ _ _ _ hk']
    exact rfl
  have hgRegO : ∀ ρ', ρ' < st.roots.length → getRoot stReg ρ' = getRoot st ρ' := by
    intro ρ' hρ'
    rw [← hstReg, getRoot_locksSet, getRoot_setRoot_ne _ _ _ _ (by omega)]
    simp only [getRoot]
    exact getD_append_lt _ _ _ _ hρ'
  have hindReg : ∀ j, getInd stReg j = getInd st j := by
    intro j; rw [← hstReg]; exact rfl
  have hlenReg : stReg.roots.length = st.roots.length + 1 := by
    rw [← hstReg]; simp [locksSet, setRoot]
  have hlenIndReg : stReg.indirects.length = st.indirects.length := by
    rw [← hstReg]; exact rfl
  have hnowReg : stReg.now = st.now := by rw [← hstReg]; exact rfl
  have huidReg : stReg.uid = st.uid := by rw [← hstReg]; exact rfl
  -- the WEBDAV annotation setup
  obtain ⟨st3, hst3⟩ : ∃ s, setWebdav stReg st.roots.length ⟨none, []⟩ = s := ⟨_, rfl⟩
  have hrid3 : st.roots.length < stReg.roots.length := by rw [hlenReg]; omega
  have hg3 : getRoot st3 st.roots.length =
      ⟨fk, .exclusive, [principal_id], st.now, some duration, none, some st.uid,
        ⟨none, some ⟨none, []⟩⟩⟩ := by
    rw [← hst3, setWebdav, getRoot_setRoot_self _ _ _ hrid3, hgReg]
  have hlk3 : ∀ k', locksGet st3 k' = locksGet stReg k' := by
    intro k'; rw [← hst3, setWebdav]; exact rfl
  have hind3 : ∀ j, getInd st3 j = getInd st j := by
    intro j; rw [← hst3, setWebdav, getInd_setRoot]; exact hindReg j
  have hlen3 : st3.roots.length = st.roots.length + 1 := by
    rw [← hst3, setWebdav, setRoot]
    simpa using hlenReg
  have hg3O : ∀ ρ', ρ' < st.roots.length → getRoot st3 ρ' = getRoot st ρ' := by
    intro ρ' hρ'
    rw [← hst3, setWebdav, getRoot_setRoot_ne _ _ _ _ (by omega)]
    exact hgRegO ρ' hρ'
  have hnow3 : st3.now = st.now := by rw [← hst3, setWebdav]; exact hnowReg
  have huid3 : st3.uid = st.uid := by rw [← hst3, setWebdav]; exact huidReg
  have hlenInd3 : st3.indirects.length = st.indirects.length := by
    rw [← hst3, setWebdav, setRoot]
    simpa using hlenIndReg
  have hann3 : (getRoot st3 st.roots.length).annotations.webdav = some ⟨none, []⟩ := by
    rw [hg3]
  -- the finishLock handle entry
  obtain ⟨st4, hst4⟩ : ∃ s, setWebdav st3 st.roots.length
      { (⟨none, []⟩ : WebdavAnnots) with handles :=
        ((⟨none, []⟩ : WebdavAnnots).handles.filter (fun p => p.1 != locktoken)) ++
          [(locktoken, ⟨owner, "infinity"⟩)] } = s := ⟨_, rfl⟩
  have hrid4 : st.roots.length < st3.roots.length := by rw [hlen3]; omega
  have hg4 : getRoot st4 st.roots.length =
      ⟨fk, .exclusive, [principal_id], st.now, some duration, none, some st.uid,
        ⟨none, some ⟨none, [(locktoken, ⟨owner, "infinity"⟩)]⟩⟩⟩ := by
    rw [← hst4, setWebdav, getRoot_setRoot_self _ _ _ hrid4, hg3]
    rfl
  have hlk4 : ∀ k', locksGet st4 k' = locksGet stReg k' := by
    intro k'; rw [← hst4, setWebdav, locksGet_setRoot]; exact hlk3 k'
  have hind4 : ∀ j, getInd st4 j = getInd st j := by
    intro j; rw [← hst4, setWebdav, getInd_setRoot]; exact hind3 j
  have hlen4 : st4.roots.length = st.roots.length + 1 := by
    rw [← hst4, setWebdav, setRoot]
    simpa using hlen3
  have hg4O : ∀ ρ', ρ' < st.roots.length → getRoot st4 ρ' = getRoot st ρ' := by
    intro ρ' hρ'
    rw [← hst4, setWebdav, getRoot_setRoot_ne _ _ _ _ (by omega)]
    exact hg3O ρ' hρ'
  have hnow4 : st4.now = st.now := by rw [← hst4, setWebdav]; exact hnow3
  have huid4 : st4.uid = st.uid := by rw [← hst4, setWebdav]; exact huid3
  have hlenInd4 : st4.indirects.length = st.indirects.length := by
    rw [← hst4, setWebdav, setRoot]
    simpa using hlenInd3
  -- hypotheses of the children walk at st4
  have w1 : st.roots.length < st4.roots.length := by rw [hlen4]; omega
  have w2 : (getRoot st4 st.roots.length).utility = some st4.uid := by
    rw [hg4, huid4]
  have w3 : (getRoot st4 st.roots.length).effEnded st4.now = none := by
    rw [hg4, hnow4]
    unfold RootTok.effEnded RootTok.expiration
    simp [Nat.not_le.mpr (by omega : st.now < st.now + duration)]
  have w5 : ∀ k ∈ pre, locksGet st4 k = none ∧
      (((getRoot st4 st.roots.length).annotations.indirectIndex.getD []).find?
        (fun q => q.1 == k)) = none := by
    intro k hk
    have hne : k ≠ fk := fun he => hfkpre (he ▸ hk)
    refine ⟨?_, ?_⟩
    · rw [hlk4 k, hlkRegO k hne]
      exact hlkpre k hk
    · rw [hg4]
      rfl
  have w7 : locksGet st4 bad = some (.rootRef rB) := by
    rw [hlk4 bad, hlkRegO bad (Ne.symm hfkbad)]
    exact hbadtok
  have w8 : rB < st4.roots.length := by rw [hlen4]; omega
  have w9 : rB ≠ st.roots.length := by omega
  have w10 : (getRoot st4 rB).effEnded st4.now = none := by
    rw [hg4O rB hrB, hnow4]
    exact heffB
  obtain ⟨stF, hloop, hpresO, hpreI, hindO, hendF, hctxF, hkindF, hlenF⟩ :=
    lockChildren_partial st.roots.length bad rB suf pre st4 w1 w2 w3 hprenodup
      w5 hbadpre w7 w8 w9 w10
  -- assemble the whole lock computation
  have hmr : DAVLockmanager.maybeRecursivelyLockIndirectly st4
      (.folder fk (pre.map Resource.item ++ Resource.item bad :: suf))
      (.rootRef st.roots.length) "infinity" = (stF, some .alreadyLocked) := by
    simp only [DAVLockmanager.maybeRecursivelyLockIndirectly, if_pos rfl]
    exact hloop
  have hfin : DAVLockmanager.finishLock st3
      (.folder fk (pre.map Resource.item ++ Resource.item bad :: suf))
      st.roots.length owner "infinity" locktoken = (stF, .error .alreadyLocked) := by
    simp only [DAVLockmanager.finishLock, hann3, Option.getD_some, hst4, hmr]
  have hlock : DAVLockmanager.lock st
      (.folder fk (pre.map Resource.item ++ Resource.item bad :: suf))
      "exclusive" ty owner duration "infinity" principal_id locktoken =
      (stF, .error .alreadyLocked) := by
    unfold DAVLockmanager.lock
    rw [if_pos rfl]
    simp only [Resource.key]
    simp only [hwrap]
    simp only [hst3]
    exact hfin
  refine ⟨stF, hlock, ?_, ?_, ?_, ?_, ?_, ?_⟩
  · rw [hpresO fk hfkpre, hlk4 fk, hlkRegfk]
  · rw [hctxF, hg4]
  · rw [hkindF, hg4]
  · rw [hendF, hg4]
  · intro k hk
    exact hpreI k hk
  · rw [hpresO bad hbadpre, w7]

theorem infinite_depth_lock_partial_failure_witness :
    locksGet
      { uid := 7, now := 100,
        roots := [⟨13, .exclusive, ["x"], 100, none, none, some 7, ⟨none, none⟩⟩],
        indirects := [], locks := [(13, .rootRef 0)] } 13 = some (.rootRef 0) ∧
    ∃ st',
      DAVLockmanager.lock
        { uid := 7, now := 100,
          roots := [⟨13, .exclusive, ["x"], 100, none, none, some 7, ⟨none, none⟩⟩],
          indirects := [], locks := [(13, .rootRef 0)] }
        (.folder 10 (([11, 12] : List Nat).map Resource.item ++ Resource.item 13 :: []))
        "exclusive" "write" "M" 3600 "infinity" "michael" 77 =
      (st', .error .alreadyLocked) ∧
      locksGet st' 10 = some (.rootRef 1) ∧
      (getRoot st' 1).context = 10 ∧
      (getRoot st' 1).kind = TokenKind.exclusive ∧
      (getRoot st' 1).ended = none ∧
      (∀ k ∈ ([11, 12] : List Nat), ∃ i, locksGet st' k = some (.indRef i) ∧
        (getInd st' i).roottoken = .rootRef 1) ∧
      locksGet st' 13 = some (.rootRef 0) :=
  ⟨by decide,
    infinite_depth_lock_partial_failure _ 10 13 0 [11, 12] [] "write" "M" "michael"
      3600 77 (by decide) (by decide) (by decide) (by decide) (by decide)
      (by decide) (by decide) (by decide) (by decide) (by decide)⟩
